import Mathlib

/-!
# Verification of the katello_fit challenge tracker

Shallow embedding of the server routes of `src/server.js` over the SQLite
schema of `src/db.js`.  The database is modelled as lists of rows (list order
is SQLite rowid order: inserts append, `get` takes the first match, `DELETE`
filters, `UPDATE` maps).  Sessions are modelled as an optional user id plus a
role string, exactly the fields the routes read.  Timestamps, bcrypt hashes
and random invite codes enter the routes as opaque string parameters.
-/

namespace KatelloFit

/-- Flash message categories used by `addFlash` in `src/server.js`. -/
inductive FlashType where
  | error
  | info
  | success
deriving DecidableEq

/-- A flash message: `addFlash(req, type, message)`. -/
structure Flash where
  type : FlashType
  message : String
deriving DecidableEq

/-- A row of the `users` table (`src/db.js`). -/
structure User where
  id : Nat
  name : String
  email : String
  passwordHash : String
  role : String
  goalExercises : Nat
deriving DecidableEq

/-- A row of the `challenges` table (`src/db.js`).  `inviteCode = none`
models a SQL NULL invite code. -/
structure Challenge where
  id : Nat
  title : String
  description : String
  startDate : String
  endDate : String
  goalCount : Nat
  groupGoal : Option Int
  status : String
  prize : String
  penalty : String
  inviteCode : Option String
  creatorId : Nat
deriving DecidableEq

/-- A row of the `challenge_participants` table (`src/db.js`). -/
structure Participant where
  userId : Nat
  challengeId : Nat
  joinedAt : String
deriving DecidableEq

/-- A row of the `exercise_logs` table (`src/db.js`); each insert uses
`count = 1`, the `count` field is kept for fidelity. -/
structure LogRow where
  userId : Nat
  challengeId : Nat
  count : Nat
  activity : String
  loggedOn : String
deriving DecidableEq

/-- The database state: the four tables plus the AUTOINCREMENT counters for
the two tables whose generated ids the routes use. -/
structure DB where
  users : List User
  challenges : List Challenge
  participants : List Participant
  logs : List LogRow
  nextUserId : Nat
  nextChallengeId : Nat
deriving DecidableEq

/-- The part of the express session the routes read: `req.session.userId`
(`none` when not logged in) and `req.session.role`. -/
structure Session where
  userId : Option Nat
  role : String
deriving DecidableEq

/-- Outcome of one request: the database afterwards, the flashes the handler
added, and the redirect target (`none` when the handler rendered a page). -/
structure RouteResult where
  db : DB
  flashes : List Flash
  redirectTo : Option String
deriving DecidableEq

/-- `SELECT * FROM challenges WHERE id = ?` (first match). -/
def findChallenge (db : DB) (cid : Nat) : Option Challenge :=
  db.challenges.find? (fun c => c.id == cid)

/-- `SELECT id FROM challenge_participants WHERE user_id = ? AND challenge_id = ?`. -/
def findParticipant (db : DB) (uid cid : Nat) : Option Participant :=
  db.participants.find? (fun p => p.userId == uid && p.challengeId == cid)

/-- `SELECT * FROM users WHERE email = ?`. -/
def findUserByEmail (db : DB) (email : String) : Option User :=
  db.users.find? (fun u => u.email == email)

/-- `SELECT * FROM users WHERE id = ?`. -/
def findUserById (db : DB) (uid : Nat) : Option User :=
  db.users.find? (fun u => u.id == uid)

/-- `SELECT * FROM challenges WHERE invite_code = ?`. -/
def findChallengeByCode (db : DB) (code : String) : Option Challenge :=
  db.challenges.find? (fun c => c.inviteCode == some code)

/-- Pairs `(user_id, challenge_id)` of the participants table, the subject of
the schema's `UNIQUE(user_id, challenge_id)` constraint. -/
def pairsOf (db : DB) : List (Nat × Nat) :=
  db.participants.map (fun p => (p.userId, p.challengeId))

/-- The non-null invite codes currently stored in the challenges table. -/
def codesOf (db : DB) : List String :=
  db.challenges.filterMap Challenge.inviteCode

/-- `POST /registrar` (`src/server.js`).  Inputs are taken after the
handler's `.trim().toLowerCase()` normalisation. -/
def registrarRoute (db : DB) (name email pwHash : String) : RouteResult :=
  if name = "" ∨ email = "" ∨ pwHash = "" then
    ⟨db, [⟨.error, "Preencha todos os campos obrigatorios."⟩], some "/registrar"⟩
  else if (findUserByEmail db email).isSome then
    ⟨db, [⟨.error, "Este email ja esta cadastrado."⟩], some "/registrar"⟩
  else
    ⟨{db with
        users := db.users ++ [⟨db.nextUserId, name, email, pwHash, "participant", 0⟩],
        nextUserId := db.nextUserId + 1},
      [⟨.success, "Cadastro criado com sucesso. Faça login."⟩], some "/login"⟩

/-- `POST /challenges/novo` (`src/server.js`).  `inviteCode` is the value
returned by `generateInviteCode()`. -/
def createChallengeRoute (db : DB) (sess : Session)
    (title description startDate endDate : String) (goalCount : Nat)
    (groupGoal : Option Int) (prize penalty inviteCode now : String) : RouteResult :=
  match sess.userId with
  | none => ⟨db, [], some "/login"⟩
  | some sid =>
    if description = "" ∨ startDate = "" ∨ endDate = "" ∨ goalCount = 0 then
      ⟨db, [⟨.error, "Descrição, datas e meta são obrigatórios."⟩], some "/challenges/novo"⟩
    else if groupGoal.any (fun g => g ≤ 0) then
      ⟨db, [⟨.error, "Meta do grupo deve ser um número válido."⟩], some "/challenges/novo"⟩
    else
      let cid := db.nextChallengeId
      ⟨{db with
          challenges := db.challenges ++
            [⟨cid, title, description, startDate, endDate, goalCount, groupGoal,
              "active", prize, penalty, some inviteCode, sid⟩],
          participants := db.participants ++ [⟨sid, cid, now⟩],
          nextChallengeId := cid + 1},
        [⟨.success, "Desafio criado!"⟩], some ("/challenges/" ++ toString cid)⟩

/-- `GET /challenges/:id` (`src/server.js`): the owner who has not joined yet
is auto-enrolled, a missing invite code is backfilled with `fresh`, then the
page is rendered. -/
def viewChallengeRoute (db : DB) (sess : Session) (cid : Nat)
    (fresh now : String) : RouteResult :=
  match sess.userId with
  | none => ⟨db, [], some "/login"⟩
  | some sid =>
    match findChallenge db cid with
    | none => ⟨db, [⟨.error, "Desafio não encontrado."⟩], some "/dashboard"⟩
    | some c =>
      let hasJoined := (findParticipant db sid cid).isSome
      let isOwner := c.creatorId == sid
      if !hasJoined && !isOwner then
        ⟨db, [⟨.error, "Você não participa deste desafio."⟩], some "/dashboard"⟩
      else
        let statusFlashes : List Flash :=
          if c.status != "active" then [⟨.info, "Este desafio está encerrado."⟩] else []
        let db1 :=
          if isOwner && !hasJoined then
            {db with participants := db.participants ++ [⟨sid, cid, now⟩]}
          else db
        let db2 :=
          if c.inviteCode = none then
            {db1 with challenges := db1.challenges.map (fun ch =>
              if ch.id == cid then {ch with inviteCode := some fresh} else ch)}
          else db1
        ⟨db2, statusFlashes, none⟩

/-- `POST /challenges/:id/entrar` (`src/server.js`). -/
def entrarRoute (db : DB) (sess : Session) (cid : Nat) (now : String) : RouteResult :=
  match sess.userId with
  | none => ⟨db, [], some "/login"⟩
  | some sid =>
    match findChallenge db cid with
    | none =>
      ⟨db, [⟨.error, "Este desafio está encerrado."⟩], some ("/challenges/" ++ toString cid)⟩
    | some c =>
      if c.status != "active" then
        ⟨db, [⟨.error, "Este desafio está encerrado."⟩], some ("/challenges/" ++ toString cid)⟩
      else if (findParticipant db sid cid).isSome then
        ⟨db, [⟨.info, "Você já participa deste desafio."⟩], some ("/challenges/" ++ toString cid)⟩
      else
        ⟨{db with participants := db.participants ++ [⟨sid, cid, now⟩]},
          [⟨.success, "Participação confirmada. Bora treinar!"⟩],
          some ("/challenges/" ++ toString cid)⟩

/-- `POST /challenges/:id/adicionar` (`src/server.js`).  The request is
refused only when the caller is neither a participant nor the creator. -/
def adicionarRoute (db : DB) (sess : Session) (cid : Nat)
    (email now : String) : RouteResult :=
  match sess.userId with
  | none => ⟨db, [], some "/login"⟩
  | some sid =>
    if email = "" then
      ⟨db, [⟨.error, "Informe o email do usuario."⟩], some ("/challenges/" ++ toString cid)⟩
    else
      match findChallenge db cid with
      | none => ⟨db, [⟨.error, "Desafio não encontrado."⟩], some "/dashboard"⟩
      | some c =>
        if c.status != "active" then
          ⟨db, [⟨.error, "Este desafio está encerrado."⟩], some ("/challenges/" ++ toString cid)⟩
        else
          let isParticipant := (findParticipant db sid cid).isSome
          if !isParticipant && !(c.creatorId == sid) then
            ⟨db, [⟨.error, "Você não pode adicionar usuários neste desafio."⟩], some "/dashboard"⟩
          else
            match findUserByEmail db email with
            | none => ⟨db, [⟨.error, "Usuário não encontrado."⟩], some ("/challenges/" ++ toString cid)⟩
            | some u =>
              if u.id == c.creatorId then
                if (findParticipant db u.id cid).isSome then
                  ⟨db, [⟨.info, "Este usuário já participa do desafio."⟩],
                    some ("/challenges/" ++ toString cid)⟩
                else
                  ⟨{db with participants := db.participants ++ [⟨u.id, cid, now⟩]},
                    [⟨.success, "Criador adicionado como participante."⟩],
                    some ("/challenges/" ++ toString cid)⟩
              else if (findParticipant db u.id cid).isSome then
                ⟨db, [⟨.info, "Usuário já participa deste desafio."⟩],
                  some ("/challenges/" ++ toString cid)⟩
              else
                ⟨{db with participants := db.participants ++ [⟨u.id, cid, now⟩]},
                  [⟨.success, "Usuário adicionado ao desafio."⟩],
                  some ("/challenges/" ++ toString cid)⟩

/-- `GET /convite/:code` (`src/server.js`). -/
def conviteRoute (db : DB) (sess : Session) (code now : String) : RouteResult :=
  match sess.userId with
  | none => ⟨db, [], some "/login"⟩
  | some sid =>
    match findChallengeByCode db code with
    | none => ⟨db, [⟨.error, "Convite invalido."⟩], some "/dashboard"⟩
    | some c =>
      if c.status != "active" then
        ⟨db, [⟨.error, "Este desafio está encerrado."⟩], some "/dashboard"⟩
      else if c.creatorId == sid then
        ⟨db, [], some ("/challenges/" ++ toString c.id)⟩
      else if (findParticipant db sid c.id).isSome then
        ⟨db, [⟨.success, "Você entrou no desafio!"⟩], some ("/challenges/" ++ toString c.id)⟩
      else
        ⟨{db with participants := db.participants ++ [⟨sid, c.id, now⟩]},
          [⟨.success, "Você entrou no desafio!"⟩], some ("/challenges/" ++ toString c.id)⟩

/-- `POST /challenges/:id/log` (`src/server.js`). -/
def logRoute (db : DB) (sess : Session) (cid : Nat)
    (activity loggedOn : String) : RouteResult :=
  match sess.userId with
  | none => ⟨db, [], some "/login"⟩
  | some sid =>
    if activity = "" then
      ⟨db, [⟨.error, "Informe o tipo de exercício."⟩], some ("/challenges/" ++ toString cid)⟩
    else if (findParticipant db sid cid).isSome then
      ⟨{db with logs := db.logs ++ [⟨sid, cid, 1, activity, loggedOn⟩]},
        [⟨.success, "Treino registrado!"⟩], some ("/challenges/" ++ toString cid)⟩
    else
      ⟨db, [⟨.error, "Entre no desafio antes de registrar treinos."⟩],
        some ("/challenges/" ++ toString cid)⟩

/-- `POST /atividades` (`src/server.js`): one log row per joined challenge,
inserted inside one transaction. -/
def atividadesRoute (db : DB) (sess : Session)
    (activity loggedOn : String) : RouteResult :=
  match sess.userId with
  | none => ⟨db, [], some "/login"⟩
  | some sid =>
    if activity = "" then
      ⟨db, [⟨.error, "Informe o tipo de exercicio."⟩], some "/dashboard"⟩
    else
      let joined := (db.participants.filter (fun p => p.userId == sid)).map
        Participant.challengeId
      if joined = [] then
        ⟨db, [⟨.info, "Você não participa de nenhum desafio."⟩], some "/dashboard"⟩
      else
        ⟨{db with logs := db.logs ++ joined.map (fun c => ⟨sid, c, 1, activity, loggedOn⟩)},
          [⟨.success, "Atividade registrada em todos os desafios."⟩], some "/dashboard"⟩

/-- `POST /challenges/:id/encerrar` (`src/server.js`). -/
def encerrarRoute (db : DB) (sess : Session) (cid : Nat) : RouteResult :=
  match sess.userId with
  | none => ⟨db, [], some "/login"⟩
  | some sid =>
    match findChallenge db cid with
    | none => ⟨db, [⟨.error, "Desafio não encontrado."⟩], some "/dashboard"⟩
    | some c =>
      if c.creatorId == sid then
        ⟨{db with challenges := db.challenges.map (fun ch =>
            if ch.id == cid then {ch with status := "closed"} else ch)},
          [⟨.success, "Desafio encerrado."⟩], some "/perfil"⟩
      else
        ⟨db, [⟨.error, "Você não pode encerrar este desafio."⟩],
          some ("/challenges/" ++ toString cid)⟩

/-- `POST /challenges/:id/excluir` (`src/server.js`). -/
def excluirRoute (db : DB) (sess : Session) (cid : Nat) : RouteResult :=
  match sess.userId with
  | none => ⟨db, [], some "/login"⟩
  | some sid =>
    match findChallenge db cid with
    | none => ⟨db, [⟨.error, "Desafio não encontrado."⟩], some "/dashboard"⟩
    | some c =>
      if c.creatorId == sid then
        ⟨{db with
            challenges := db.challenges.filter (fun ch => !(ch.id == cid)),
            participants := db.participants.filter (fun p => !(p.challengeId == cid)),
            logs := db.logs.filter (fun e => !(e.challengeId == cid))},
          [⟨.success, "Desafio excluído."⟩], some "/dashboard"⟩
      else
        ⟨db, [⟨.error, "Você não pode excluir este desafio."⟩],
          some ("/challenges/" ++ toString cid)⟩

/-- `POST /perfil/meta` (`src/server.js`). -/
def perfilMetaRoute (db : DB) (sess : Session) (goal : Int) : RouteResult :=
  match sess.userId with
  | none => ⟨db, [], some "/login"⟩
  | some sid =>
    if goal < 0 then
      ⟨db, [⟨.error, "Informe uma meta valida."⟩], some "/perfil"⟩
    else
      ⟨{db with users := db.users.map (fun u =>
          if u.id == sid then {u with goalExercises := goal.toNat} else u)},
        [⟨.success, "Meta atualizada."⟩], some "/perfil"⟩

/-- `POST /perfil/senha` (`src/server.js`).  `currentOk` stands for the
result of `bcrypt.compare` on the stored hash, `newHash` for the fresh
bcrypt hash of the new password. -/
def perfilSenhaRoute (db : DB) (sess : Session) (currentOk : Bool)
    (newPw confirmPw newHash : String) : RouteResult :=
  match sess.userId with
  | none => ⟨db, [], some "/login"⟩
  | some sid =>
    if newPw = "" ∨ confirmPw = "" then
      ⟨db, [⟨.error, "Preencha todos os campos de senha."⟩], some "/perfil"⟩
    else if newPw.length < 6 then
      ⟨db, [⟨.error, "A nova senha deve ter pelo menos 6 caracteres."⟩], some "/perfil"⟩
    else if newPw ≠ confirmPw then
      ⟨db, [⟨.error, "A confirmação de senha não confere."⟩], some "/perfil"⟩
    else if (findUserById db sid).isNone then
      ⟨db, [⟨.error, "Usuário não encontrado."⟩], some "/perfil"⟩
    else if !currentOk then
      ⟨db, [⟨.error, "Senha atual incorreta."⟩], some "/perfil"⟩
    else
      ⟨{db with users := db.users.map (fun u =>
          if u.id == sid then {u with passwordHash := newHash} else u)},
        [⟨.success, "Senha atualizada com sucesso."⟩], some "/perfil"⟩

/-- `POST /admin/usuarios/:id/reset` (`src/server.js`).  `newHash` stands for
the bcrypt hash of the random temporary password. -/
def adminResetRoute (db : DB) (sess : Session) (uid : Nat)
    (newHash : String) : RouteResult :=
  match sess.userId with
  | none => ⟨db, [], some "/login"⟩
  | some _ =>
    let db' := {db with users := db.users.map (fun u =>
      if u.id == uid then {u with passwordHash := newHash} else u)}
    if (db.users.any (fun u => u.id == uid)) then
      ⟨db', [⟨.success, "Senha temporaria gerada."⟩], some "/admin/usuarios"⟩
    else
      ⟨db', [⟨.error, "Usuário não encontrado."⟩], some "/admin/usuarios"⟩

/-- `POST /admin/usuarios/:id/excluir` (`src/server.js`): the cascading
delete transaction. -/
def adminDeleteRoute (db : DB) (sess : Session) (uid : Nat) : RouteResult :=
  match sess.userId with
  | none => ⟨db, [], some "/login"⟩
  | some sid =>
    if uid == sid then
      ⟨db, [⟨.error, "Você não pode excluir seu próprio usuário."⟩], some "/admin/usuarios"⟩
    else
      let challengeIds := (db.challenges.filter (fun c => c.creatorId == uid)).map
        Challenge.id
      ⟨{db with
          users := db.users.filter (fun u => !(u.id == uid)),
          challenges := db.challenges.filter (fun c => !(challengeIds.contains c.id)),
          participants := (db.participants.filter
              (fun p => !(challengeIds.contains p.challengeId))).filter
            (fun p => !(p.userId == uid)),
          logs := (db.logs.filter
              (fun e => !(challengeIds.contains e.challengeId))).filter
            (fun e => !(e.userId == uid))},
        [⟨.success, "Usuário excluído."⟩], some "/admin/usuarios"⟩

/-!
## Pure computations: progress percent and days remaining
-/

/-- JavaScript `Math.round` on a non-negative rational:
`Math.round(x) = ⌊x + 0.5⌋`. -/
def jsRound (q : ℚ) : ℤ := ⌊q + 1 / 2⌋

/-- The dashboard progress computation of `src/server.js`
(`challenge.goal_count ? Math.min(Math.round((userTotal / goal) * 100), 100) : 0`,
used both for `activeStats` and `creatorCards`). -/
def progressPercent (total goal : ℕ) : ℕ :=
  if goal = 0 then 0
  else min (jsRound ((total : ℚ) / goal * 100)).toNat 100

/-- Round-half-up of `total / goal * 100` as the spec writes it, in exact
natural arithmetic. -/
def specRound (total goal : ℕ) : ℕ := (200 * total + goal) / (2 * goal)

/-!
Times are milliseconds since the epoch (`Date.getTime()`), modelled as `ℤ`;
calendar dates are day numbers, with the ISO date string of a `Date` being
its day number `⌊t / 86400000⌋`; `off` is `Date.getTimezoneOffset()` in
minutes (positive west of UTC).  `/` on `ℤ` is Euclidean division, which is
floor division for the positive divisors used here.
-/

/-- `date.toISOString().slice(0, 10)` as a day number. -/
def isoDateOf (tMs : ℤ) : ℤ := tMs / 86400000

/-- `toDateOnly(value)` of `src/server.js`: `new Date(value + "T00:00:00")`
parses the date at local midnight, whose epoch time is
`day * 86400000 + off * 60000`. -/
def toDateOnly (day off : ℤ) : ℤ := day * 86400000 + off * 60000

/-- `getLocalDateString()` of `src/server.js`:
`new Date(now - offsetMs).toISOString().slice(0, 10)`. -/
def getLocalDateString (nowMs off : ℤ) : ℤ := isoDateOf (nowMs - off * 60000)

/-- JavaScript `Math.ceil(a / b)` for integer `a` and positive integer `b`. -/
def jsCeilDiv (a b : ℤ) : ℤ := -((-a) / b)

/-- `daysRemaining(endDate)` of `src/server.js`, with the current time and
the timezone offset made explicit. -/
def daysRemaining (endDay nowMs off : ℤ) : ℤ :=
  let today := toDateOnly (getLocalDateString nowMs off) off
  let diffMs := toDateOnly endDay off - toDateOnly (isoDateOf today) off
  max (jsCeilDiv diffMs 86400000) 0

/-!
## The challenge leaderboard query

`GET /challenges/:id` runs

    SELECT u.id AS user_id, u.name AS name, COALESCE(COUNT(e.id), 0) AS total
    FROM users u
    JOIN challenge_participants cp ON cp.user_id = u.id
    LEFT JOIN exercise_logs e
      ON e.user_id = u.id AND e.challenge_id = cp.challenge_id
    WHERE cp.challenge_id = ?
    GROUP BY u.id
    ORDER BY total DESC, u.name ASC
-/

/-- One leaderboard row. -/
structure LBRow where
  userId : Nat
  name : String
  total : Nat
deriving DecidableEq

/-- `COUNT(e.id)` for one user group: every `cp` row of the user for this
challenge contributes the matching `exercise_logs` rows (zero when the LEFT
JOIN finds none). -/
def lbTotal (db : DB) (uid cid : Nat) : Nat :=
  ((db.participants.filter (fun p => p.userId == uid && p.challengeId == cid)).map
    (fun p => (db.logs.filter
      (fun e => e.userId == uid && e.challengeId == p.challengeId)).length)).sum

/-- The count of exercise-log rows of one user within one challenge — the
total the spec describes. -/
def countLogs (db : DB) (uid cid : Nat) : Nat :=
  (db.logs.filter (fun e => e.userId == uid && e.challengeId == cid)).length

/-- `ORDER BY total DESC, u.name ASC` as a boolean total preorder. -/
def lbLE (a b : LBRow) : Bool :=
  decide (b.total < a.total) ||
    (a.total == b.total && decide (a.name ≤ b.name))

/-- Ordered insertion for `lbLE`. -/
def insertRow (r : LBRow) : List LBRow → List LBRow
  | [] => [r]
  | x :: xs => if lbLE r x then r :: x :: xs else x :: insertRow r xs

/-- Insertion sort realising the `ORDER BY` clause. -/
def sortRows : List LBRow → List LBRow
  | [] => []
  | x :: xs => insertRow x (sortRows xs)

/-- The user rows surviving the inner join: users having a participant row
for the challenge. -/
def lbMembers (db : DB) (cid : Nat) : List User :=
  db.users.filter (fun u =>
    db.participants.any (fun p => p.userId == u.id && p.challengeId == cid))

/-- The leaderboard of a challenge: one group per joined user, ordered by
total descending then name ascending. -/
def leaderboardRows (db : DB) (cid : Nat) : List LBRow :=
  sortRows ((lbMembers db cid).map (fun u => ⟨u.id, u.name, lbTotal db u.id cid⟩))

/-!
## The operation machine

One constructor per state-changing route, with the session and every
external input (timestamps, generated codes, hashes) as data.
-/

/-- A state-changing request. -/
inductive Op where
  | register (name email pwHash : String)
  | createChallenge (sess : Session) (title description startDate endDate : String)
      (goalCount : Nat) (groupGoal : Option Int) (prize penalty inviteCode now : String)
  | viewChallenge (sess : Session) (cid : Nat) (fresh now : String)
  | entrar (sess : Session) (cid : Nat) (now : String)
  | adicionar (sess : Session) (cid : Nat) (email now : String)
  | convite (sess : Session) (code now : String)
  | logExercise (sess : Session) (cid : Nat) (activity loggedOn : String)
  | atividades (sess : Session) (activity loggedOn : String)
  | encerrar (sess : Session) (cid : Nat)
  | excluir (sess : Session) (cid : Nat)
  | perfilMeta (sess : Session) (goal : Int)
  | perfilSenha (sess : Session) (currentOk : Bool) (newPw confirmPw newHash : String)
  | adminReset (sess : Session) (uid : Nat) (newHash : String)
  | adminDelete (sess : Session) (uid : Nat)
deriving DecidableEq

/-- Dispatch one request to its handler. -/
def handle (db : DB) : Op → RouteResult
  | .register name email pwHash => registrarRoute db name email pwHash
  | .createChallenge sess t d sd ed g gg pz pn code now =>
      createChallengeRoute db sess t d sd ed g gg pz pn code now
  | .viewChallenge sess cid fresh now => viewChallengeRoute db sess cid fresh now
  | .entrar sess cid now => entrarRoute db sess cid now
  | .adicionar sess cid email now => adicionarRoute db sess cid email now
  | .convite sess code now => conviteRoute db sess code now
  | .logExercise sess cid a d => logRoute db sess cid a d
  | .atividades sess a d => atividadesRoute db sess a d
  | .encerrar sess cid => encerrarRoute db sess cid
  | .excluir sess cid => excluirRoute db sess cid
  | .perfilMeta sess goal => perfilMetaRoute db sess goal
  | .perfilSenha sess ok a b h => perfilSenhaRoute db sess ok a b h
  | .adminReset sess uid h => adminResetRoute db sess uid h
  | .adminDelete sess uid => adminDeleteRoute db sess uid

/-- The database after one request. -/
def step (db : DB) (op : Op) : DB := (handle db op).db

/-- The database after a sequence of requests. -/
def run (db : DB) : List Op → DB
  | [] => db
  | op :: ops => run (step db op) ops

/-- The freshly initialised database (`initDb` creates empty tables;
AUTOINCREMENT starts at 1). -/
def initDB : DB := ⟨[], [], [], [], 1, 1⟩

/-- Schema well-formedness maintained by every route: the
`UNIQUE(user_id, challenge_id)` constraint, unique challenge ids below the
AUTOINCREMENT counter, and the participants' foreign key into challenges. -/
structure Inv (db : DB) : Prop where
  pairsNodup : (pairsOf db).Nodup
  chalLt : ∀ c ∈ db.challenges, c.id < db.nextChallengeId
  chalNodup : (db.challenges.map Challenge.id).Nodup
  partFK : ∀ p ∈ db.participants, ∃ c ∈ db.challenges, c.id = p.challengeId

/-- The invite codes a request draws from `generateInviteCode()`:
challenge creation always draws one, viewing draws the backfill candidate. -/
def opCodes : Op → List String
  | .createChallenge _ _ _ _ _ _ _ _ _ code _ => [code]
  | .viewChallenge _ _ fresh _ => [fresh]
  | _ => []

/-- All invite codes drawn along a request sequence. -/
def allCodes : List Op → List String
  | [] => []
  | op :: ops => opCodes op ++ allCodes ops

/-!
## Concrete fixtures used by witnesses and counterexamples
-/

/-- A small well-formed database: Ana (1) owns challenge 1 (invite code
`"c1"`), Bia (2) owns challenge 2 (invite code still NULL, Bia not yet
enrolled); Ana and Bia participate in challenge 1; Bia has one log there. -/
def sampleDB : DB :=
  ⟨[⟨1, "Ana", "ana@x.com", "h1", "participant", 0⟩,
    ⟨2, "Bia", "bia@x.com", "h2", "participant", 0⟩,
    ⟨3, "Caio", "caio@x.com", "h3", "participant", 0⟩],
   [⟨1, "T1", "D1", "2025-01-01", "2025-02-01", 10, none, "active", "", "", some "c1", 1⟩,
    ⟨2, "T2", "D2", "2025-01-01", "2025-03-01", 5, none, "active", "", "", none, 2⟩],
   [⟨1, 1, "t"⟩, ⟨2, 1, "t"⟩],
   [⟨2, 1, 1, "corrida", "2025-01-02"⟩],
   4, 3⟩

/-- A request sequence reaching a state with a dangling participant row:
Bia registers and logs in, Ana deletes Bia through the admin route (which
does not invalidate Bia's session), and Bia — still holding a live
session — joins Ana's challenge. -/
def zombieOps : List Op :=
  [.register "Ana" "ana@x.com" "h1",
   .register "Bia" "bia@x.com" "h2",
   .createChallenge ⟨some 1, "participant"⟩ "T" "D" "2025-01-01" "2025-12-31" 10
     none "" "" "c1" "t1",
   .adminDelete ⟨some 1, "participant"⟩ 2,
   .entrar ⟨some 2, "participant"⟩ 1 "t2"]

/-- Two challenge creations whose random invite codes happen to collide. -/
def collideOps : List Op :=
  [.register "Ana" "ana@x.com" "h1",
   .createChallenge ⟨some 1, "participant"⟩ "T1" "D1" "2025-01-01" "2025-12-31" 10
     none "" "" "dup0" "t1",
   .createChallenge ⟨some 1, "participant"⟩ "T2" "D2" "2025-01-01" "2025-12-31" 10
     none "" "" "dup0" "t2"]

/-!
## Generic helper lemmas
-/

/-- Appending one element keeps a list duplicate-free iff the element is
fresh. -/
theorem nodup_concat {α : Type _} {l : List α} {a : α} :
    (l ++ [a]).Nodup ↔ l.Nodup ∧ a ∉ l := by
  simp [List.nodup_append]

/-- `Nodup` descends along subpermutations. -/
theorem subperm_nodup {α : Type _} {l₁ l₂ : List α}
    (h : List.Subperm l₁ l₂) (h₂ : l₂.Nodup) : l₁.Nodup := by
  obtain ⟨l, hp, hs⟩ := h
  exact hp.nodup_iff.mp (h₂.sublist hs)

/-- Projecting duplicate-free pairs with a constant second component keeps
the first components duplicate-free. -/
theorem map_fst_nodup_of_const_snd {α β : Type _} {l : List (α × β)} {c : β}
    (hn : l.Nodup) (hc : ∀ x ∈ l, x.2 = c) : (l.map Prod.fst).Nodup := by
  induction l with
  | nil => simp
  | cons a l ih =>
      rcases List.nodup_cons.mp hn with ⟨ha, hl⟩
      refine List.nodup_cons.mpr ⟨?_, ih hl (fun x hx => hc x (List.mem_cons_of_mem a hx))⟩
      intro hmem
      rcases List.mem_map.mp hmem with ⟨x, hx, hfst⟩
      have hx2 : x.2 = a.2 := by
        rw [hc x (List.mem_cons_of_mem a hx), hc a (List.mem_cons_self a l)]
      exact ha (by rwa [show x = a from Prod.ext hfst hx2] at hx)

/-!
## Characterisations of the row lookups
-/

/-- `findParticipant` misses exactly when the `(user, challenge)` pair is
absent. -/
theorem findParticipant_eq_none {db : DB} {uid cid : Nat} :
    findParticipant db uid cid = none ↔ (uid, cid) ∉ pairsOf db := by
  simp only [findParticipant, List.find?_eq_none, pairsOf, List.mem_map]
  constructor
  · rintro h ⟨p, hp, hpair⟩
    have := h p hp
    simp only [Bool.and_eq_true, beq_iff_eq] at this
    exact this ⟨congrArg Prod.fst hpair, congrArg Prod.snd hpair⟩
  · intro h p hp hb
    simp only [Bool.and_eq_true, beq_iff_eq] at hb
    exact h ⟨p, hp, by simp [hb.1, hb.2]⟩

/-- `findParticipant` hits exactly when the pair is present. -/
theorem findParticipant_isSome {db : DB} {uid cid : Nat} :
    (findParticipant db uid cid).isSome = true ↔ (uid, cid) ∈ pairsOf db := by
  rcases h : findParticipant db uid cid with _ | p
  · simpa using findParticipant_eq_none.mp h
  · simp only [Option.isSome_some, true_iff]
    have hmem := List.mem_of_find?_eq_some h
    have hb := List.find?_some h
    simp only [Bool.and_eq_true, beq_iff_eq] at hb
    exact List.mem_map.mpr ⟨p, hmem, by simp [hb.1, hb.2]⟩

/-- A successful `findChallenge` returns a stored row with the requested id. -/
theorem findChallenge_some {db : DB} {cid : Nat} {c : Challenge}
    (h : findChallenge db cid = some c) : c ∈ db.challenges ∧ c.id = cid := by
  refine ⟨List.mem_of_find?_eq_some h, ?_⟩
  have := List.find?_some h
  simpa using this

/-- A successful `findChallengeByCode` returns a stored row carrying the
code. -/
theorem findChallengeByCode_some {db : DB} {code : String} {c : Challenge}
    (h : findChallengeByCode db code = some c) :
    c ∈ db.challenges ∧ c.inviteCode = some code := by
  refine ⟨List.mem_of_find?_eq_some h, ?_⟩
  have := List.find?_some h
  simpa using this

/-!
## Preservation of the schema invariant
-/

/-- Inserting a fresh participant row that points at a stored challenge
preserves the invariant. -/
theorem inv_insert_participant {db : DB} (hinv : Inv db) (p : Participant)
    (hfresh : (p.userId, p.challengeId) ∉ pairsOf db)
    (hfk : ∃ c ∈ db.challenges, c.id = p.challengeId) :
    Inv {db with participants := db.participants ++ [p]} := by
  refine ⟨?_, hinv.chalLt, hinv.chalNodup, ?_⟩
  · have : pairsOf {db with participants := db.participants ++ [p]}
        = pairsOf db ++ [(p.userId, p.challengeId)] := by
      simp [pairsOf]
    rw [this, nodup_concat]
    exact ⟨hinv.pairsNodup, hfresh⟩
  · intro q hq
    rcases List.mem_append.mp hq with hq | hq
    · exact hinv.partFK q hq
    · rcases List.mem_singleton.mp hq with rfl
      exact hfk

/-- Rewriting challenge rows without touching their ids preserves the
invariant. -/
theorem inv_map_challenges {db : DB} (hinv : Inv db) (f : Challenge → Challenge)
    (hid : ∀ c, (f c).id = c.id) :
    Inv {db with challenges := db.challenges.map f} := by
  have hids : (db.challenges.map f).map Challenge.id
      = db.challenges.map Challenge.id := by
    rw [List.map_map]
    exact List.map_congr_left (fun c _ => hid c)
  refine ⟨hinv.pairsNodup, ?_, ?_, ?_⟩
  · intro c hc
    rcases List.mem_map.mp hc with ⟨c0, hc0, rfl⟩
    rw [hid]
    exact hinv.chalLt c0 hc0
  · rw [hids]; exact hinv.chalNodup
  · intro p hp
    rcases hinv.partFK p hp with ⟨c, hc, hcid⟩
    exact ⟨f c, List.mem_map_of_mem f hc, by rw [hid]; exact hcid⟩

/-- Deleting a set of challenges together with every participant row that
points into the set preserves the invariant; further thinning the
participants by any predicate is also allowed. -/
theorem inv_delete_challenges {db : DB} (hinv : Inv db) (bad : Nat → Bool)
    (keep : Participant → Bool) (logs' : List LogRow) (users' : List User)
    (nu : Nat) :
    Inv {db with
      users := users',
      challenges := db.challenges.filter (fun c => !(bad c.id)),
      participants := (db.participants.filter
          (fun p => !(bad p.challengeId))).filter keep,
      logs := logs',
      nextUserId := nu} := by
  refine ⟨?_, ?_, ?_, ?_⟩
  · have hsub : List.Sublist
        (((db.participants.filter (fun p => !(bad p.challengeId))).filter keep).map
          (fun p => (p.userId, p.challengeId)))
        (db.participants.map (fun p => (p.userId, p.challengeId))) :=
      List.Sublist.map _ ((List.filter_sublist _).trans (List.filter_sublist _))
    exact hinv.pairsNodup.sublist hsub
  · intro c hc
    exact hinv.chalLt c (List.mem_of_mem_filter hc)
  · exact hinv.chalNodup.sublist (List.Sublist.map _ (List.filter_sublist _))
  · intro p hp
    have hp1 := List.mem_of_mem_filter hp
    have hkeep := List.mem_filter.mp hp1
    rcases hinv.partFK p hkeep.1 with ⟨c, hc, hcid⟩
    refine ⟨c, List.mem_filter.mpr ⟨hc, ?_⟩, hcid⟩
    rw [hcid]
    exact hkeep.2

/-- Changing only the user rows or the log rows preserves the invariant. -/
theorem inv_users_logs {db : DB} (hinv : Inv db) (users' : List User)
    (logs' : List LogRow) (nu : Nat) :
    Inv {db with users := users', logs := logs', nextUserId := nu} :=
  ⟨hinv.pairsNodup, hinv.chalLt, hinv.chalNodup, hinv.partFK⟩

/-- `POST /registrar` preserves the invariant. -/
theorem inv_registrar {db : DB} (hinv : Inv db) (n e p : String) :
    Inv (registrarRoute db n e p).db := by
  unfold registrarRoute
  split
  · exact hinv
  · split
    · exact hinv
    · exact inv_users_logs hinv _ _ _

/-- `POST /challenges/novo` preserves the invariant. -/
theorem inv_create {db : DB} (hinv : Inv db) (sess : Session)
    (t d sd ed : String) (g : Nat) (gg : Option Int) (pz pn code now : String) :
    Inv (createChallengeRoute db sess t d sd ed g gg pz pn code now).db := by
  unfold createChallengeRoute
  rcases sess.userId with _ | sid
  · exact hinv
  · simp only
    split
    · exact hinv
    · split
      · exact hinv
      · refine ⟨?_, ?_, ?_, ?_⟩
        · simp only [pairsOf, List.map_append, List.map_cons, List.map_nil]
          rw [nodup_concat]
          refine ⟨hinv.pairsNodup, fun hmem => ?_⟩
          rcases List.mem_map.mp hmem with ⟨q, hq, hpair⟩
          rcases hinv.partFK q hq with ⟨c, hc, hcid⟩
          have h1 : q.challengeId = db.nextChallengeId := congrArg Prod.snd hpair
          have h2 := hinv.chalLt c hc
          omega
        · intro c hc
          rcases List.mem_append.mp hc with hc | hc
          · exact Nat.lt_succ_of_lt (hinv.chalLt c hc)
          · rcases List.mem_singleton.mp hc with rfl
            exact Nat.lt_succ_self _
        · simp only [List.map_append, List.map_cons, List.map_nil]
          rw [nodup_concat]
          refine ⟨hinv.chalNodup, fun hmem => ?_⟩
          rcases List.mem_map.mp hmem with ⟨c, hc, hcid⟩
          have := hinv.chalLt c hc
          omega
        · intro q hq
          rcases List.mem_append.mp hq with hq | hq
          · rcases hinv.partFK q hq with ⟨c, hc, hcid⟩
            exact ⟨c, List.mem_append_left _ hc, hcid⟩
          · rcases List.mem_singleton.mp hq with rfl
            exact ⟨_, List.mem_append_right _ (List.mem_singleton_self _), rfl⟩

/-- `GET /challenges/:id` preserves the invariant. -/
theorem inv_view {db : DB} (hinv : Inv db) (sess : Session) (cid : Nat)
    (fresh now : String) :
    Inv (viewChallengeRoute db sess cid fresh now).db := by
  unfold viewChallengeRoute
  rcases sess.userId with _ | sid
  · exact hinv
  · simp only
    rcases hc : findChallenge db cid with _ | c
    · exact hinv
    · simp only
      split
      · exact hinv
      · rename_i hauth
        have hdb1 : Inv (if c.creatorId == sid && !(findParticipant db sid cid).isSome
            then {db with participants := db.participants ++ [⟨sid, cid, now⟩]}
            else db) := by
          split
          · rename_i hcond
            simp only [Bool.and_eq_true, Bool.not_eq_true'] at hcond
            refine inv_insert_participant hinv _ ?_ ?_
            · have : findParticipant db sid cid = none :=
                Option.not_isSome_iff_eq_none.mp (by simp [hcond.2])
              exact findParticipant_eq_none.mp this
            · rcases findChallenge_some hc with ⟨hcm, hcid⟩
              exact ⟨c, hcm, hcid⟩
          · exact hinv
        split
        · exact inv_map_challenges hdb1 _ (fun ch => by split <;> rfl)
        · exact hdb1

/-- `POST /challenges/:id/entrar` preserves the invariant. -/
theorem inv_entrar {db : DB} (hinv : Inv db) (sess : Session) (cid : Nat)
    (now : String) : Inv (entrarRoute db sess cid now).db := by
  unfold entrarRoute
  rcases sess.userId with _ | sid
  · exact hinv
  · simp only
    rcases hc : findChallenge db cid with _ | c
    · exact hinv
    · simp only
      split
      · exact hinv
      · split
        · exact hinv
        · rename_i hjoined
          refine inv_insert_participant hinv _ ?_ ?_
          · exact findParticipant_eq_none.mp
              (Option.not_isSome_iff_eq_none.mp (by simpa using hjoined))
          · rcases findChallenge_some hc with ⟨hcm, hcid⟩
            exact ⟨c, hcm, hcid⟩

/-- `POST /challenges/:id/adicionar` preserves the invariant. -/
theorem inv_adicionar {db : DB} (hinv : Inv db) (sess : Session) (cid : Nat)
    (email now : String) : Inv (adicionarRoute db sess cid email now).db := by
  unfold adicionarRoute
  rcases sess.userId with _ | sid
  · exact hinv
  · simp only
    split
    · exact hinv
    · rcases hc : findChallenge db cid with _ | c
      · exact hinv
      · simp only
        split
        · exact hinv
        · split
          · exact hinv
          · rcases hu : findUserByEmail db email with _ | u
            · exact hinv
            · simp only
              have hfk : ∃ ch ∈ db.challenges, ch.id = cid := by
                rcases findChallenge_some hc with ⟨hcm, hcid⟩
                exact ⟨c, hcm, hcid⟩
              split
              · split
                · exact hinv
                · rename_i hnot
                  exact inv_insert_participant hinv _
                    (findParticipant_eq_none.mp
                      (Option.not_isSome_iff_eq_none.mp (by simpa using hnot))) hfk
              · split
                · exact hinv
                · rename_i hnot
                  exact inv_insert_participant hinv _
                    (findParticipant_eq_none.mp
                      (Option.not_isSome_iff_eq_none.mp (by simpa using hnot))) hfk

/-- `GET /convite/:code` preserves the invariant. -/
theorem inv_convite {db : DB} (hinv : Inv db) (sess : Session)
    (code now : String) : Inv (conviteRoute db sess code now).db := by
  unfold conviteRoute
  rcases sess.userId with _ | sid
  · exact hinv
  · simp only
    rcases hc : findChallengeByCode db code with _ | c
    · exact hinv
    · simp only
      split
      · exact hinv
      · split
        · exact hinv
        · split
          · exact hinv
          · rename_i hjoined
            refine inv_insert_participant hinv _ ?_ ?_
            · exact findParticipant_eq_none.mp
                (Option.not_isSome_iff_eq_none.mp (by simpa using hjoined))
            · exact ⟨c, (findChallengeByCode_some hc).1, rfl⟩

/-- `POST /challenges/:id/log` preserves the invariant. -/
theorem inv_log {db : DB} (hinv : Inv db) (sess : Session) (cid : Nat)
    (a d : String) : Inv (logRoute db sess cid a d).db := by
  unfold logRoute
  rcases sess.userId with _ | sid
  · exact hinv
  · simp only
    split
    · exact hinv
    · split
      · exact inv_users_logs hinv _ _ _
      · exact hinv

/-- `POST /atividades` preserves the invariant. -/
theorem inv_atividades {db : DB} (hinv : Inv db) (sess : Session)
    (a d : String) : Inv (atividadesRoute db sess a d).db := by
  unfold atividadesRoute
  rcases sess.userId with _ | sid
  · exact hinv
  · simp only
    split
    · exact hinv
    · split
      · exact hinv
      · exact inv_users_logs hinv _ _ _

/-- `POST /challenges/:id/encerrar` preserves the invariant. -/
theorem inv_encerrar {db : DB} (hinv : Inv db) (sess : Session) (cid : Nat) :
    Inv (encerrarRoute db sess cid).db := by
  unfold encerrarRoute
  rcases sess.userId with _ | sid
  · exact hinv
  · simp only
    rcases hc : findChallenge db cid with _ | c
    · exact hinv
    · simp only
      split
      · exact inv_map_challenges hinv _ (fun ch => by split <;> rfl)
      · exact hinv

/-- `POST /challenges/:id/excluir` preserves the invariant. -/
theorem inv_excluir {db : DB} (hinv : Inv db) (sess : Session) (cid : Nat) :
    Inv (excluirRoute db sess cid).db := by
  unfold excluirRoute
  rcases sess.userId with _ | sid
  · exact hinv
  · simp only
    rcases hc : findChallenge db cid with _ | c
    · exact hinv
    · simp only
      split
      · have := inv_delete_challenges hinv (fun i => i == cid)
          (fun _ => true) (db.logs.filter (fun e => !(e.challengeId == cid)))
          db.users db.nextUserId
        simpa using this
      · exact hinv

/-- `POST /perfil/meta` preserves the invariant. -/
theorem inv_perfilMeta {db : DB} (hinv : Inv db) (sess : Session) (g : Int) :
    Inv (perfilMetaRoute db sess g).db := by
  unfold perfilMetaRoute
  rcases sess.userId with _ | sid
  · exact hinv
  · simp only
    split
    · exact hinv
    · exact inv_users_logs hinv _ _ _

/-- `POST /perfil/senha` preserves the invariant. -/
theorem inv_perfilSenha {db : DB} (hinv : Inv db) (sess : Session)
    (ok : Bool) (a b h : String) :
    Inv (perfilSenhaRoute db sess ok a b h).db := by
  unfold perfilSenhaRoute
  rcases sess.userId with _ | sid
  · exact hinv
  · simp only
    split
    · exact hinv
    · split
      · exact hinv
      · split
        · exact hinv
        · split
          · exact hinv
          · split
            · exact hinv
            · exact inv_users_logs hinv _ _ _

/-- `POST /admin/usuarios/:id/reset` preserves the invariant. -/
theorem inv_adminReset {db : DB} (hinv : Inv db) (sess : Session) (uid : Nat)
    (h : String) : Inv (adminResetRoute db sess uid h).db := by
  unfold adminResetRoute
  rcases sess.userId with _ | sid
  · exact hinv
  · simp only
    split
    · exact inv_users_logs hinv _ _ _
    · exact inv_users_logs hinv _ _ _

/-- `POST /admin/usuarios/:id/excluir` preserves the invariant. -/
theorem inv_adminDelete {db : DB} (hinv : Inv db) (sess : Session)
    (uid : Nat) : Inv (adminDeleteRoute db sess uid).db := by
  unfold adminDeleteRoute
  rcases sess.userId with _ | sid
  · exact hinv
  · simp only
    split
    · exact hinv
    · exact inv_delete_challenges hinv _ _ _ _ _

/-- Every request preserves the invariant. -/
theorem inv_step {db : DB} (hinv : Inv db) (op : Op) : Inv (step db op) := by
  cases op with
  | register n e p => exact inv_registrar hinv n e p
  | createChallenge sess t d sd ed g gg pz pn code now =>
      exact inv_create hinv sess t d sd ed g gg pz pn code now
  | viewChallenge sess cid fresh now => exact inv_view hinv sess cid fresh now
  | entrar sess cid now => exact inv_entrar hinv sess cid now
  | adicionar sess cid email now => exact inv_adicionar hinv sess cid email now
  | convite sess code now => exact inv_convite hinv sess code now
  | logExercise sess cid a d => exact inv_log hinv sess cid a d
  | atividades sess a d => exact inv_atividades hinv sess a d
  | encerrar sess cid => exact inv_encerrar hinv sess cid
  | excluir sess cid => exact inv_excluir hinv sess cid
  | perfilMeta sess g => exact inv_perfilMeta hinv sess g
  | perfilSenha sess ok a b h => exact inv_perfilSenha hinv sess ok a b h
  | adminReset sess uid h => exact inv_adminReset hinv sess uid h
  | adminDelete sess uid => exact inv_adminDelete hinv sess uid

/-- The invariant holds along every run. -/
theorem inv_run {db : DB} (hinv : Inv db) (ops : List Op) :
    Inv (run db ops) := by
  induction ops generalizing db with
  | nil => exact hinv
  | cons op ops ih => exact ih (inv_step hinv op)

/-- The initial database satisfies the invariant. -/
theorem inv_initDB : Inv initDB := by
  refine ⟨?_, ?_, ?_, ?_⟩ <;> simp [initDB, pairsOf]

/-!
## The `ORDER BY` relation and insertion sort
-/

/-- `lbLE` is total. -/
theorem lbLE_total (a b : LBRow) : lbLE a b = true ∨ lbLE b a = true := by
  simp only [lbLE, Bool.or_eq_true, decide_eq_true_eq, Bool.and_eq_true, beq_iff_eq]
  rcases Nat.lt_trichotomy a.total b.total with h | h | h
  · exact Or.inr (Or.inl h)
  · rcases le_total a.name b.name with hn | hn
    · exact Or.inl (Or.inr ⟨h, hn⟩)
    · exact Or.inr (Or.inr ⟨h.symm, hn⟩)
  · exact Or.inl (Or.inl h)

/-- `lbLE` is transitive. -/
theorem lbLE_trans {a b c : LBRow} (h1 : lbLE a b = true)
    (h2 : lbLE b c = true) : lbLE a c = true := by
  simp only [lbLE, Bool.or_eq_true, decide_eq_true_eq, Bool.and_eq_true,
    beq_iff_eq] at h1 h2 ⊢
  rcases h1 with h1 | ⟨h1e, h1n⟩ <;> rcases h2 with h2 | ⟨h2e, h2n⟩
  · exact Or.inl (by omega)
  · exact Or.inl (by omega)
  · exact Or.inl (by omega)
  · exact Or.inr ⟨by omega, le_trans h1n h2n⟩

/-- Ordered insertion permutes. -/
theorem insertRow_perm (r : LBRow) (l : List LBRow) :
    (insertRow r l).Perm (r :: l) := by
  induction l with
  | nil => exact List.Perm.refl _
  | cons x xs ih =>
      unfold insertRow
      split
      · exact List.Perm.refl _
      · exact (ih.cons x).trans (List.Perm.swap r x xs)

/-- Ordered insertion preserves sortedness. -/
theorem insertRow_sorted (r : LBRow) {l : List LBRow}
    (hl : List.Pairwise (fun a b => lbLE a b = true) l) :
    List.Pairwise (fun a b => lbLE a b = true) (insertRow r l) := by
  induction l with
  | nil => simp [insertRow]
  | cons x xs ih =>
      rcases List.pairwise_cons.mp hl with ⟨hx, hxs⟩
      unfold insertRow
      split
      · rename_i hrx
        refine List.pairwise_cons.mpr ⟨?_, hl⟩
        intro y hy
        rcases List.mem_cons.mp hy with rfl | hy
        · exact hrx
        · exact lbLE_trans hrx (hx y hy)
      · rename_i hrx
        have hxr : lbLE x r = true := by
          rcases lbLE_total r x with h | h
          · exact absurd h hrx
          · exact h
        refine List.pairwise_cons.mpr ⟨?_, ih hxs⟩
        intro y hy
        have hy' := (insertRow_perm r xs).mem_iff.mp hy
        rcases List.mem_cons.mp hy' with rfl | h
        · exact hxr
        · exact hx y h

/-- Insertion sort permutes. -/
theorem sortRows_perm (l : List LBRow) : (sortRows l).Perm l := by
  induction l with
  | nil => exact List.Perm.refl _
  | cons x xs ih => exact (insertRow_perm x (sortRows xs)).trans (ih.cons x)

/-- Insertion sort sorts. -/
theorem sortRows_sorted (l : List LBRow) :
    List.Pairwise (fun a b => lbLE a b = true) (sortRows l) := by
  induction l with
  | nil => simp [sortRows]
  | cons x xs ih => exact insertRow_sorted x ih

/-!
## The grouped totals
-/

/-- A duplicate-free list whose members are all equal has at most one
element. -/
theorem length_le_one_of_nodup_const {α : Type _} {l : List α} {v : α}
    (hn : l.Nodup) (hc : ∀ x ∈ l, x = v) : l.length ≤ 1 := by
  match l with
  | [] => simp
  | [_] => simp
  | a :: b :: t =>
      exfalso
      rcases List.nodup_cons.mp hn with ⟨ha, _⟩
      have hab : a = b := by
        rw [hc a (by simp), hc b (by simp)]
      exact ha (by simp [hab])

/-- Under the `UNIQUE(user_id, challenge_id)` constraint a user present in a
challenge has exactly one participant row there, so the SQL `COUNT(e.id)`
group total is the plain count of the user's logs in the challenge. -/
theorem lbTotal_eq_countLogs {db : DB} {uid cid : Nat}
    (hn : (pairsOf db).Nodup) (hmem : (uid, cid) ∈ pairsOf db) :
    lbTotal db uid cid = countLogs db uid cid := by
  obtain ⟨p, hp, hpair⟩ := List.mem_map.mp hmem
  have huid : p.userId = uid := congrArg Prod.fst hpair
  have hcid : p.challengeId = cid := congrArg Prod.snd hpair
  have hpl : p ∈ db.participants.filter
      (fun q => q.userId == uid && q.challengeId == cid) :=
    List.mem_filter.mpr ⟨hp, by simp [huid, hcid]⟩
  have hnodup : ((db.participants.filter
      (fun q => q.userId == uid && q.challengeId == cid)).map
        (fun q => (q.userId, q.challengeId))).Nodup :=
    hn.sublist (List.Sublist.map _ (List.filter_sublist _))
  have hconst : ∀ x ∈ (db.participants.filter
      (fun q => q.userId == uid && q.challengeId == cid)).map
        (fun q => (q.userId, q.challengeId)), x = (uid, cid) := by
    intro x hx
    rcases List.mem_map.mp hx with ⟨q, hq, rfl⟩
    have := (List.mem_filter.mp hq).2
    simp only [Bool.and_eq_true, beq_iff_eq] at this
    simp [this.1, this.2]
  have hlen : (db.participants.filter
      (fun q => q.userId == uid && q.challengeId == cid)).length ≤ 1 := by
    have := length_le_one_of_nodup_const hnodup hconst
    simpa using this
  have hsingle : db.participants.filter
      (fun q => q.userId == uid && q.challengeId == cid) = [p] := by
    rcases hflt : db.participants.filter
        (fun q => q.userId == uid && q.challengeId == cid) with _ | ⟨a, t⟩
    · rw [hflt] at hpl; cases hpl
    · rw [hflt] at hpl hlen
      have ht : t = [] := by
        cases t with
        | nil => rfl
        | cons b tb => simp at hlen
      subst ht
      rcases List.mem_singleton.mp hpl with rfl
      exact hflt
  unfold lbTotal countLogs
  rw [hsingle]
  simp [huid, hcid]

/-!
## Invite-code bookkeeping across requests
-/

/-- A challenge found by id is the only stored row with that id. -/
theorem findChallenge_unique {db : DB}
    (hn : (db.challenges.map Challenge.id).Nodup) {cid : Nat} {cf : Challenge}
    (hf : findChallenge db cid = some cf) {x : Challenge}
    (hx : x ∈ db.challenges) (hxid : x.id = cid) : x = cf := by
  rcases findChallenge_some hf with ⟨hcm, hcid⟩
  exact List.inj_on_of_nodup_map hn hx hcm (by rw [hxid, hcid])

/-- The challenge-id counter never decreases. -/
theorem step_next_mono (db : DB) (op : Op) :
    db.nextChallengeId ≤ (step db op).nextChallengeId := by
  cases op <;>
    simp only [step, handle, registrarRoute, createChallengeRoute,
      viewChallengeRoute, entrarRoute, adicionarRoute, conviteRoute, logRoute,
      atividadesRoute, encerrarRoute, excluirRoute, perfilMetaRoute,
      perfilSenhaRoute, adminResetRoute, adminDeleteRoute] <;>
    (repeat' split) <;> simp

/-- Every challenge row after one request is an old row, an old row with
its status set to closed, an old row whose NULL invite code was filled in,
or a row created fresh under the current counter value. -/
theorem step_challenges_cases {db : DB} (hinv : Inv db) (op : Op) :
    ∀ x ∈ (step db op).challenges,
      x ∈ db.challenges ∨
      (∃ c0 ∈ db.challenges, x = {c0 with status := "closed"}) ∨
      (∃ c0 ∈ db.challenges, c0.inviteCode = none ∧
        ∃ f, x = {c0 with inviteCode := some f}) ∨
      x.id = db.nextChallengeId := by
  intro x
  cases op with
  | register n e p =>
      simp only [step, handle]
      unfold registrarRoute
      split
      · exact fun hx => Or.inl (by simpa using hx)
      · split
        · exact fun hx => Or.inl (by simpa using hx)
        · exact fun hx => Or.inl (by simpa using hx)
  | createChallenge sess t d sd ed g gg pz pn code now =>
      simp only [step, handle]
      unfold createChallengeRoute
      rcases sess.userId with _ | sid
      · exact fun hx => Or.inl (by simpa using hx)
      · simp only
        split
        · exact fun hx => Or.inl (by simpa using hx)
        · split
          · exact fun hx => Or.inl (by simpa using hx)
          · intro hx
            have hx' : x ∈ db.challenges ∨
                x = ⟨db.nextChallengeId, t, d, sd, ed, g, gg, "active", pz, pn,
                  some code, sid⟩ := by
              simpa using hx
            rcases hx' with h | rfl
            · exact Or.inl h
            · exact Or.inr (Or.inr (Or.inr rfl))
  | viewChallenge sess cid fresh now =>
      simp only [step, handle]
      unfold viewChallengeRoute
      rcases sess.userId with _ | sid
      · exact fun hx => Or.inl (by simpa using hx)
      · simp only
        rcases hfc : findChallenge db cid with _ | c
        · exact fun hx => Or.inl (by simpa using hx)
        · simp only
          split
          · exact fun hx => Or.inl (by simpa using hx)
          · split
            · rename_i hnone
              split <;>
              · intro hx
                rcases List.mem_map.mp (by simpa using hx) with ⟨c0, hc0, rfl⟩
                by_cases hcid : c0.id = cid
                · refine Or.inr (Or.inr (Or.inl ⟨c0, hc0, ?_, fresh, by simp [hcid]⟩))
                  have hc0c : c0 = c := findChallenge_unique hinv.chalNodup hfc
                    hc0 hcid
                  rw [hc0c, hnone]
                · left
                  simpa [hcid] using hc0
            · split <;> exact fun hx => Or.inl (by simpa using hx)
  | entrar sess cid now =>
      simp only [step, handle]
      unfold entrarRoute
      rcases sess.userId with _ | sid
      · exact fun hx => Or.inl (by simpa using hx)
      · simp only
        rcases hfc : findChallenge db cid with _ | c
        · exact fun hx => Or.inl (by simpa using hx)
        · simp only
          split
          · exact fun hx => Or.inl (by simpa using hx)
          · split
            · exact fun hx => Or.inl (by simpa using hx)
            · exact fun hx => Or.inl (by simpa using hx)
  | adicionar sess cid email now =>
      simp only [step, handle]
      unfold adicionarRoute
      rcases sess.userId with _ | sid
      · exact fun hx => Or.inl (by simpa using hx)
      · simp only
        split
        · exact fun hx => Or.inl (by simpa using hx)
        · rcases hfc : findChallenge db cid with _ | c
          · exact fun hx => Or.inl (by simpa using hx)
          · simp only
            split
            · exact fun hx => Or.inl (by simpa using hx)
            · split
              · exact fun hx => Or.inl (by simpa using hx)
              · rcases hu : findUserByEmail db email with _ | u
                · exact fun hx => Or.inl (by simpa using hx)
                · simp only
                  split
                  · split
                    · exact fun hx => Or.inl (by simpa using hx)
                    · exact fun hx => Or.inl (by simpa using hx)
                  · split
                    · exact fun hx => Or.inl (by simpa using hx)
                    · exact fun hx => Or.inl (by simpa using hx)
  | convite sess code now =>
      simp only [step, handle]
      unfold conviteRoute
      rcases sess.userId with _ | sid
      · exact fun hx => Or.inl (by simpa using hx)
      · simp only
        rcases hfc : findChallengeByCode db code with _ | c
        · exact fun hx => Or.inl (by simpa using hx)
        · simp only
          split
          · exact fun hx => Or.inl (by simpa using hx)
          · split
            · exact fun hx => Or.inl (by simpa using hx)
            · split
              · exact fun hx => Or.inl (by simpa using hx)
              · exact fun hx => Or.inl (by simpa using hx)
  | logExercise sess cid a d =>
      simp only [step, handle]
      unfold logRoute
      rcases sess.userId with _ | sid
      · exact fun hx => Or.inl (by simpa using hx)
      · simp only
        split
        · exact fun hx => Or.inl (by simpa using hx)
        · split
          · exact fun hx => Or.inl (by simpa using hx)
          · exact fun hx => Or.inl (by simpa using hx)
  | atividades sess a d =>
      simp only [step, handle]
      unfold atividadesRoute
      rcases sess.userId with _ | sid
      · exact fun hx => Or.inl (by simpa using hx)
      · simp only
        split
        · exact fun hx => Or.inl (by simpa using hx)
        · split
          · exact fun hx => Or.inl (by simpa using hx)
          · exact fun hx => Or.inl (by simpa using hx)
  | encerrar sess cid =>
      simp only [step, handle]
      unfold encerrarRoute
      rcases sess.userId with _ | sid
      · exact fun hx => Or.inl (by simpa using hx)
      · simp only
        rcases hfc : findChallenge db cid with _ | c
        · exact fun hx => Or.inl (by simpa using hx)
        · simp only
          split
          · intro hx
            rcases List.mem_map.mp (by simpa using hx) with ⟨c0, hc0, rfl⟩
            by_cases hcid : c0.id = cid
            · exact Or.inr (Or.inl ⟨c0, hc0, by simp [hcid]⟩)
            · left
              simpa [hcid] using hc0
          · exact fun hx => Or.inl (by simpa using hx)
  | excluir sess cid =>
      simp only [step, handle]
      unfold excluirRoute
      rcases sess.userId with _ | sid
      · exact fun hx => Or.inl (by simpa using hx)
      · simp only
        rcases hfc : findChallenge db cid with _ | c
        · exact fun hx => Or.inl (by simpa using hx)
        · simp only
          split
          · exact fun hx => Or.inl (List.mem_filter.mp hx).1
          · exact fun hx => Or.inl (by simpa using hx)
  | perfilMeta sess g =>
      simp only [step, handle]
      unfold perfilMetaRoute
      rcases sess.userId with _ | sid
      · exact fun hx => Or.inl (by simpa using hx)
      · simp only
        split
        · exact fun hx => Or.inl (by simpa using hx)
        · exact fun hx => Or.inl (by simpa using hx)
  | perfilSenha sess ok a b h =>
      simp only [step, handle]
      unfold perfilSenhaRoute
      rcases sess.userId with _ | sid
      · exact fun hx => Or.inl (by simpa using hx)
      · simp only
        split
        · exact fun hx => Or.inl (by simpa using hx)
        · split
          · exact fun hx => Or.inl (by simpa using hx)
          · split
            · exact fun hx => Or.inl (by simpa using hx)
            · split
              · exact fun hx => Or.inl (by simpa using hx)
              · split
                · exact fun hx => Or.inl (by simpa using hx)
                · exact fun hx => Or.inl (by simpa using hx)
  | adminReset sess uid h =>
      simp only [step, handle]
      unfold adminResetRoute
      rcases sess.userId with _ | sid
      · exact fun hx => Or.inl (by simpa using hx)
      · simp only
        split
        · exact fun hx => Or.inl (by simpa using hx)
        · exact fun hx => Or.inl (by simpa using hx)
  | adminDelete sess uid =>
      simp only [step, handle]
      unfold adminDeleteRoute
      rcases sess.userId with _ | sid
      · exact fun hx => Or.inl (by simpa using hx)
      · simp only
        split
        · exact fun hx => Or.inl (by simpa using hx)
        · exact fun hx => Or.inl (List.mem_filter.mp hx).1

/-- One request keeps the conditional code assignment of any id below the
counter: if every stored challenge carrying the id holds the code, the same
is true afterwards. -/
theorem code_stable_step {db : DB} (hinv : Inv db) (op : Op) {cidv : Nat}
    {v : String} (hlt : cidv < db.nextChallengeId)
    (hcode : ∀ x ∈ db.challenges, x.id = cidv → x.inviteCode = some v) :
    ∀ x ∈ (step db op).challenges, x.id = cidv → x.inviteCode = some v := by
  intro x hx hxid
  rcases step_challenges_cases hinv op x hx with
    h | ⟨c0, hc0, rfl⟩ | ⟨c0, hc0, hnone, f, rfl⟩ | h
  · exact hcode x h hxid
  · exact hcode c0 hc0 (by simpa using hxid)
  · exfalso
    have := hcode c0 hc0 (by simpa using hxid)
    rw [hnone] at this
    cases this
  · omega

/-- The conditional code assignment survives every request sequence. -/
theorem code_stable_run {db : DB} (hinv : Inv db) (ops : List Op)
    {cidv : Nat} {v : String} (hlt : cidv < db.nextChallengeId)
    (hcode : ∀ x ∈ db.challenges, x.id = cidv → x.inviteCode = some v) :
    ∀ x ∈ (run db ops).challenges, x.id = cidv → x.inviteCode = some v := by
  induction ops generalizing db with
  | nil => exact hcode
  | cons op ops ih =>
      exact ih (inv_step hinv op)
        (lt_of_lt_of_le hlt (step_next_mono db op))
        (code_stable_step hinv op hlt hcode)

/-- Setting the status field does not change the stored invite codes. -/
theorem filterMap_code_if_status (l : List Challenge) (cid : Nat) :
    (l.map (fun ch => if ch.id == cid then {ch with status := "closed"}
      else ch)).filterMap Challenge.inviteCode
      = l.filterMap Challenge.inviteCode := by
  induction l with
  | nil => rfl
  | cons c rest ih =>
      simp only [List.map_cons, List.filterMap_cons]
      by_cases h : (c.id == cid) = true
      · rw [if_pos h]
        dsimp only
        rcases hc : c.inviteCode with _ | w <;> dsimp only <;> rw [ih]
      · rw [if_neg h]
        rcases hc : c.inviteCode with _ | w <;> dsimp only <;> rw [ih]

/-- Backfilling a NULL invite code of a unique id adds at most the fresh
code to the stored code multiset. -/
theorem codes_setCode_subperm (l : List Challenge) (cid : Nat) (fresh : String)
    (hn : (l.map Challenge.id).Nodup) :
    List.Subperm
      ((l.map (fun ch => if ch.id == cid then {ch with inviteCode := some fresh}
        else ch)).filterMap Challenge.inviteCode)
      (l.filterMap Challenge.inviteCode ++ [fresh]) := by
  induction l with
  | nil => exact List.nil_subperm
  | cons c rest ih =>
      simp only [List.map_cons, List.nodup_cons] at hn
      obtain ⟨hnotin, hrest⟩ := hn
      by_cases h : (c.id == cid) = true
      · have hcid : c.id = cid := by simpa using h
        have hmap : rest.map (fun ch =>
            if ch.id == cid then {ch with inviteCode := some fresh} else ch)
            = rest := by
          rw [show rest.map (fun ch =>
              if ch.id == cid then {ch with inviteCode := some fresh} else ch)
              = rest.map id from ?_, List.map_id]
          refine List.map_congr_left (fun ch hch => ?_)
          have hne : (ch.id == cid) = false := by
            rcases hb : (ch.id == cid) with _ | _
            · rfl
            · exfalso
              have hchid : ch.id = cid := by simpa using hb
              exact hnotin (List.mem_map.mpr ⟨ch, hch,
                by rw [hchid]; exact hcid.symm⟩)
          simp [hne]
        simp only [List.map_cons, h, if_true, hmap, List.filterMap_cons]
        rcases hcode : c.inviteCode with _ | w
        · exact (@List.perm_append_comm _ [fresh] _).subperm
        · refine ⟨List.filterMap Challenge.inviteCode rest ++ [fresh],
            @List.perm_append_comm _ _ [fresh], ?_⟩
          exact (List.sublist_cons_self w _).append_right [fresh]
      · simp only [List.map_cons, h, if_false, Bool.false_eq_true,
          List.filterMap_cons]
        rcases hcode : c.inviteCode with _ | w
        · exact ih hrest
        · exact (List.subperm_cons w).mpr (ih hrest)

/-- One request draws its stored invite codes from the old codes plus the
codes it takes from the generator. -/
theorem step_codes_subperm {db : DB} (hinv : Inv db) (op : Op) :
    List.Subperm (codesOf (step db op)) (codesOf db ++ opCodes op) := by
  cases op with
  | register n e p =>
      simp only [step, handle]
      unfold registrarRoute
      split
      · exact (List.sublist_append_left (codesOf db) _).subperm
      · split <;> exact (List.sublist_append_left (codesOf db) _).subperm
  | createChallenge sess t d sd ed g gg pz pn code now =>
      simp only [step, handle]
      unfold createChallengeRoute
      rcases sess.userId with _ | sid
      · exact (List.sublist_append_left (codesOf db) _).subperm
      · simp only
        split
        · exact (List.sublist_append_left (codesOf db) _).subperm
        · split
          · exact (List.sublist_append_left (codesOf db) _).subperm
          · have he : codesOf {db with
                challenges := db.challenges ++
                  [⟨db.nextChallengeId, t, d, sd, ed, g, gg, "active", pz, pn,
                    some code, sid⟩],
                participants := db.participants ++ [⟨sid, db.nextChallengeId, now⟩],
                nextChallengeId := db.nextChallengeId + 1}
                = codesOf db ++ [code] := by
              simp [codesOf, List.filterMap_append]
            rw [show opCodes (.createChallenge sess t d sd ed g gg pz pn code now)
              = [code] from rfl, he]
  | viewChallenge sess cid fresh now =>
      simp only [step, handle]
      unfold viewChallengeRoute
      rcases sess.userId with _ | sid
      · exact (List.sublist_append_left (codesOf db) _).subperm
      · simp only
        rcases hfc : findChallenge db cid with _ | c
        · exact (List.sublist_append_left (codesOf db) _).subperm
        · simp only
          split
          · exact (List.sublist_append_left (codesOf db) _).subperm
          · split
            · split <;>
              · rw [show opCodes (.viewChallenge sess cid fresh now)
                  = [fresh] from rfl]
                exact codes_setCode_subperm db.challenges cid fresh hinv.chalNodup
            · split <;> exact (List.sublist_append_left (codesOf db) _).subperm
  | entrar sess cid now =>
      simp only [step, handle]
      unfold entrarRoute
      rcases sess.userId with _ | sid
      · exact (List.sublist_append_left (codesOf db) _).subperm
      · simp only
        rcases hfc : findChallenge db cid with _ | c
        · exact (List.sublist_append_left (codesOf db) _).subperm
        · simp only
          split
          · exact (List.sublist_append_left (codesOf db) _).subperm
          · split <;> exact (List.sublist_append_left (codesOf db) _).subperm
  | adicionar sess cid email now =>
      simp only [step, handle]
      unfold adicionarRoute
      rcases sess.userId with _ | sid
      · exact (List.sublist_append_left (codesOf db) _).subperm
      · simp only
        split
        · exact (List.sublist_append_left (codesOf db) _).subperm
        · rcases hfc : findChallenge db cid with _ | c
          · exact (List.sublist_append_left (codesOf db) _).subperm
          · simp only
            split
            · exact (List.sublist_append_left (codesOf db) _).subperm
            · split
              · exact (List.sublist_append_left (codesOf db) _).subperm
              · rcases hu : findUserByEmail db email with _ | u
                · exact (List.sublist_append_left (codesOf db) _).subperm
                · simp only
                  split
                  · split <;> exact (List.sublist_append_left (codesOf db) _).subperm
                  · split <;> exact (List.sublist_append_left (codesOf db) _).subperm
  | convite sess code now =>
      simp only [step, handle]
      unfold conviteRoute
      rcases sess.userId with _ | sid
      · exact (List.sublist_append_left (codesOf db) _).subperm
      · simp only
        rcases hfc : findChallengeByCode db code with _ | c
        · exact (List.sublist_append_left (codesOf db) _).subperm
        · simp only
          split
          · exact (List.sublist_append_left (codesOf db) _).subperm
          · split
            · exact (List.sublist_append_left (codesOf db) _).subperm
            · split <;> exact (List.sublist_append_left (codesOf db) _).subperm
  | logExercise sess cid a d =>
      simp only [step, handle]
      unfold logRoute
      rcases sess.userId with _ | sid
      · exact (List.sublist_append_left (codesOf db) _).subperm
      · simp only
        split
        · exact (List.sublist_append_left (codesOf db) _).subperm
        · split <;> exact (List.sublist_append_left (codesOf db) _).subperm
  | atividades sess a d =>
      simp only [step, handle]
      unfold atividadesRoute
      rcases sess.userId with _ | sid
      · exact (List.sublist_append_left (codesOf db) _).subperm
      · simp only
        split
        · exact (List.sublist_append_left (codesOf db) _).subperm
        · split <;> exact (List.sublist_append_left (codesOf db) _).subperm
  | encerrar sess cid =>
      simp only [step, handle]
      unfold encerrarRoute
      rcases sess.userId with _ | sid
      · exact (List.sublist_append_left (codesOf db) _).subperm
      · simp only
        rcases hfc : findChallenge db cid with _ | c
        · exact (List.sublist_append_left (codesOf db) _).subperm
        · simp only
          split
          · have he : codesOf {db with challenges := db.challenges.map (fun ch =>
                if ch.id == cid then {ch with status := "closed"} else ch)}
                = codesOf db := by
              simp only [codesOf]
              exact filterMap_code_if_status db.challenges cid
            rw [show opCodes (.encerrar sess cid) = [] from rfl, List.append_nil,
              he]
          · exact (List.sublist_append_left (codesOf db) _).subperm
  | excluir sess cid =>
      simp only [step, handle]
      unfold excluirRoute
      rcases sess.userId with _ | sid
      · exact (List.sublist_append_left (codesOf db) _).subperm
      · simp only
        rcases hfc : findChallenge db cid with _ | c
        · exact (List.sublist_append_left (codesOf db) _).subperm
        · simp only
          split
          · rw [show opCodes (.excluir sess cid) = [] from rfl, List.append_nil]
            exact (List.Sublist.filterMap Challenge.inviteCode
              (List.filter_sublist db.challenges)).subperm
          · exact (List.sublist_append_left (codesOf db) _).subperm
  | perfilMeta sess g =>
      simp only [step, handle]
      unfold perfilMetaRoute
      rcases sess.userId with _ | sid
      · exact (List.sublist_append_left (codesOf db) _).subperm
      · simp only
        split <;> exact (List.sublist_append_left (codesOf db) _).subperm
  | perfilSenha sess ok a b h =>
      simp only [step, handle]
      unfold perfilSenhaRoute
      rcases sess.userId with _ | sid
      · exact (List.sublist_append_left (codesOf db) _).subperm
      · simp only
        split
        · exact (List.sublist_append_left (codesOf db) _).subperm
        · split
          · exact (List.sublist_append_left (codesOf db) _).subperm
          · split
            · exact (List.sublist_append_left (codesOf db) _).subperm
            · split
              · exact (List.sublist_append_left (codesOf db) _).subperm
              · split <;> exact (List.sublist_append_left (codesOf db) _).subperm
  | adminReset sess uid h =>
      simp only [step, handle]
      unfold adminResetRoute
      rcases sess.userId with _ | sid
      · exact (List.sublist_append_left (codesOf db) _).subperm
      · simp only
        split <;> exact (List.sublist_append_left (codesOf db) _).subperm
  | adminDelete sess uid =>
      simp only [step, handle]
      unfold adminDeleteRoute
      rcases sess.userId with _ | sid
      · exact (List.sublist_append_left (codesOf db) _).subperm
      · simp only
        split
        · exact (List.sublist_append_left (codesOf db) _).subperm
        · rw [show opCodes (.adminDelete sess uid) = [] from rfl, List.append_nil]
          exact (List.Sublist.filterMap Challenge.inviteCode
            (List.filter_sublist db.challenges)).subperm

/-- When the generator never repeats a code — neither an already stored one
nor one drawn earlier in the sequence — the stored codes stay
duplicate-free along every run. -/
theorem codes_nodup_run {db : DB} (hinv : Inv db) (ops : List Op)
    (h : (codesOf db ++ allCodes ops).Nodup) :
    (codesOf (run db ops)).Nodup := by
  induction ops generalizing db with
  | nil => simpa [run, allCodes] using h
  | cons op ops ih =>
      apply ih (inv_step hinv op)
      have hsp : List.Subperm (codesOf (step db op) ++ allCodes ops)
          ((codesOf db ++ opCodes op) ++ allCodes ops) :=
        (List.subperm_append_right _).mpr (step_codes_subperm hinv op)
      apply subperm_nodup hsp
      simpa [allCodes, List.append_assoc] using h

/-!
## Claim C1: the challenge leaderboard
-/

/-- C1 (amended): for every database satisfying the schema constraints
(unique user ids, the `UNIQUE(user_id, challenge_id)` constraint) in which
every participant of the challenge still has a user row, the leaderboard
contains exactly one row per participant of the challenge, each row's total
is the count of that user's exercise-log rows within the challenge, and the
rows are ordered by total descending with name ascending as tie-break. -/
theorem c1_leaderboard_amended (db : DB) (cid : Nat)
    (hU : (db.users.map User.id).Nodup)
    (hP : (pairsOf db).Nodup)
    (hFK : ∀ p ∈ db.participants, p.challengeId = cid →
      ∃ u ∈ db.users, u.id = p.userId) :
    ((leaderboardRows db cid).map LBRow.userId).Perm
      ((db.participants.filter (fun p => p.challengeId == cid)).map
        Participant.userId) ∧
    (∀ r ∈ leaderboardRows db cid, r.total = countLogs db r.userId cid) ∧
    List.Pairwise (fun a b => lbLE a b = true) (leaderboardRows db cid) := by
  refine ⟨?_, ?_, sortRows_sorted _⟩
  · have hperm0 : (leaderboardRows db cid).Perm
        ((lbMembers db cid).map (fun u => ⟨u.id, u.name, lbTotal db u.id cid⟩)) :=
      sortRows_perm _
    have h1 : ((leaderboardRows db cid).map LBRow.userId).Perm
        ((lbMembers db cid).map User.id) := by
      have := hperm0.map LBRow.userId
      simpa [List.map_map, Function.comp] using this
    refine h1.trans ?_
    have hnodupL : ((lbMembers db cid).map User.id).Nodup :=
      hU.sublist (List.Sublist.map _ (List.filter_sublist _))
    have hnodupR : ((db.participants.filter (fun p => p.challengeId == cid)).map
        Participant.userId).Nodup := by
      have hsub : ((db.participants.filter (fun p => p.challengeId == cid)).map
          (fun p => (p.userId, p.challengeId))).Nodup :=
        hP.sublist (List.Sublist.map _ (List.filter_sublist _))
      have hconst : ∀ x ∈ (db.participants.filter
          (fun p => p.challengeId == cid)).map
            (fun p => (p.userId, p.challengeId)), x.2 = cid := by
        intro x hx
        rcases List.mem_map.mp hx with ⟨p, hp, rfl⟩
        simpa using (List.mem_filter.mp hp).2
      have := map_fst_nodup_of_const_snd hsub hconst
      simpa [List.map_map, Function.comp] using this
    rw [List.perm_ext_iff_of_nodup hnodupL hnodupR]
    intro uid
    constructor
    · intro hmem
      rcases List.mem_map.mp hmem with ⟨u, hu, rfl⟩
      have hu2 := List.mem_filter.mp hu
      rcases List.any_eq_true.mp hu2.2 with ⟨p, hp, hb⟩
      simp only [Bool.and_eq_true, beq_iff_eq] at hb
      exact List.mem_map.mpr ⟨p, List.mem_filter.mpr ⟨hp, by simp [hb.2]⟩, hb.1⟩
    · intro hmem
      rcases List.mem_map.mp hmem with ⟨p, hp, rfl⟩
      have hp2 := List.mem_filter.mp hp
      have hcid : p.challengeId = cid := by simpa using hp2.2
      rcases hFK p hp2.1 hcid with ⟨u, hu, huid⟩
      refine List.mem_map.mpr ⟨u, List.mem_filter.mpr ⟨hu, ?_⟩, huid⟩
      exact List.any_eq_true.mpr ⟨p, hp2.1, by simp [huid, hcid]⟩
  · intro r hr
    have hr' := (sortRows_perm _).mem_iff.mp hr
    rcases List.mem_map.mp hr' with ⟨u, hu, rfl⟩
    have hu2 := List.mem_filter.mp hu
    rcases List.any_eq_true.mp hu2.2 with ⟨p, hp, hb⟩
    simp only [Bool.and_eq_true, beq_iff_eq] at hb
    have hmem : (u.id, cid) ∈ pairsOf db :=
      List.mem_map.mpr ⟨p, hp, by simp [hb.1, hb.2]⟩
    simpa using lbTotal_eq_countLogs hP hmem

/-- C1 (counterexample to the claim as stated): after a reachable request
sequence — Bia's account is deleted by Ana while Bia's session stays alive,
then Bia joins challenge 1 — the challenge has two participant rows but the
leaderboard has a single row, so the leaderboard does not contain one row
per participant. -/
theorem c1_leaderboard_counterexample :
    ((run initDB zombieOps).participants.filter
      (fun p => p.challengeId == 1)).length = 2 ∧
    (leaderboardRows (run initDB zombieOps) 1).length = 1 := by decide

/-- C1 witness: the amended theorem applied to the concrete `sampleDB` and
challenge 1: the row user ids are the participant user ids, Bia's row total
is her log count, and the rows respect the ordering relation. -/
theorem c1_leaderboard_witness :
    ((leaderboardRows sampleDB 1).map LBRow.userId).Perm
      ((sampleDB.participants.filter (fun p => p.challengeId == 1)).map
        Participant.userId) ∧
    (⟨2, "Bia", 1⟩ : LBRow).total = countLogs sampleDB 2 1 ∧
    List.Pairwise (fun a b => lbLE a b = true) (leaderboardRows sampleDB 1) :=
  ⟨(c1_leaderboard_amended sampleDB 1 (by decide) (by decide) (by decide)).1,
    (c1_leaderboard_amended sampleDB 1 (by decide) (by decide)
      (by decide)).2.1 ⟨2, "Bia", 1⟩ (by decide),
    (c1_leaderboard_amended sampleDB 1 (by decide) (by decide)
      (by decide)).2.2⟩

/-!
## Claim C2: only the creator closes or deletes a challenge
-/

/-- C2: a close or delete request on an existing challenge by a session
user who is not its creator leaves the database unchanged and answers with
exactly one error flash plus a redirect; when the requester is the creator,
close rewrites the challenge's status to closed and delete removes the
challenge together with all its participant and log rows. -/
theorem c2_close_delete_creator_only (db : DB) (sid cid : Nat) (role : String)
    (c : Challenge) (hc : findChallenge db cid = some c) :
    (c.creatorId ≠ sid →
      (encerrarRoute db ⟨some sid, role⟩ cid).db = db ∧
      (encerrarRoute db ⟨some sid, role⟩ cid).flashes.map Flash.type = [.error] ∧
      (encerrarRoute db ⟨some sid, role⟩ cid).redirectTo =
        some ("/challenges/" ++ toString cid) ∧
      (excluirRoute db ⟨some sid, role⟩ cid).db = db ∧
      (excluirRoute db ⟨some sid, role⟩ cid).flashes.map Flash.type = [.error] ∧
      (excluirRoute db ⟨some sid, role⟩ cid).redirectTo =
        some ("/challenges/" ++ toString cid)) ∧
    (c.creatorId = sid →
      (encerrarRoute db ⟨some sid, role⟩ cid).db =
        {db with challenges := db.challenges.map (fun ch =>
          if ch.id == cid then {ch with status := "closed"} else ch)} ∧
      (excluirRoute db ⟨some sid, role⟩ cid).db =
        {db with
          challenges := db.challenges.filter (fun ch => !(ch.id == cid)),
          participants := db.participants.filter (fun p => !(p.challengeId == cid)),
          logs := db.logs.filter (fun e => !(e.challengeId == cid))}) := by
  unfold encerrarRoute excluirRoute
  simp only [hc]
  constructor
  · intro hne
    have hb : (c.creatorId == sid) = false := by simp [hne]
    simp [hb]
  · intro heq
    have hb : (c.creatorId == sid) = true := by simp [heq]
    simp [hb]

/-- C2 witness: applied to `sampleDB`, challenge 1 (created by Ana, id 1)
and the non-creator session of Bia (id 2). -/
theorem c2_witness :
    (encerrarRoute sampleDB ⟨some 2, "participant"⟩ 1).db = sampleDB ∧
    (encerrarRoute sampleDB ⟨some 2, "participant"⟩ 1).flashes.map Flash.type
      = [.error] ∧
    (encerrarRoute sampleDB ⟨some 2, "participant"⟩ 1).redirectTo =
      some ("/challenges/" ++ toString 1) ∧
    (excluirRoute sampleDB ⟨some 2, "participant"⟩ 1).db = sampleDB ∧
    (excluirRoute sampleDB ⟨some 2, "participant"⟩ 1).flashes.map Flash.type
      = [.error] ∧
    (excluirRoute sampleDB ⟨some 2, "participant"⟩ 1).redirectTo =
      some ("/challenges/" ++ toString 1) :=
  (c2_close_delete_creator_only sampleDB 2 1 "participant"
    ⟨1, "T1", "D1", "2025-01-01", "2025-02-01", 10, none, "active", "", "",
      some "c1", 1⟩ (by decide)).1 (by decide)

/-!
## Claim C3: the participant pair is unique and joining is idempotent
-/

/-- C3: after any request sequence from the initial database no
`(user, challenge)` pair occurs twice in the participants table, and a join
request by a user who already participates leaves the database unchanged. -/
theorem c3_participants_unique_join_idempotent :
    (∀ ops : List Op, (pairsOf (run initDB ops)).Nodup) ∧
    (∀ (db : DB) (sid cid : Nat) (role now : String),
      (sid, cid) ∈ pairsOf db →
      (entrarRoute db ⟨some sid, role⟩ cid now).db = db) := by
  constructor
  · intro ops
    exact (inv_run inv_initDB ops).pairsNodup
  · intro db sid cid role now hmem
    unfold entrarRoute
    simp only
    rcases hc : findChallenge db cid with _ | c
    · rfl
    · simp only
      split
      · rfl
      · have hs : (findParticipant db sid cid).isSome = true :=
          findParticipant_isSome.mpr hmem
        simp [hs]

/-- C3 witness: Ana (1) already participates in challenge 1 of `sampleDB`;
her repeated join request changes nothing. -/
theorem c3_witness :
    (1, 1) ∈ pairsOf sampleDB ∧
    (entrarRoute sampleDB ⟨some 1, "participant"⟩ 1 "t9").db = sampleDB :=
  ⟨by decide,
    c3_participants_unique_join_idempotent.2 sampleDB 1 1 "participant" "t9"
      (by decide)⟩

/-!
## Claim C4: the admin routes check no role
-/

/-- C4: both admin routes behave identically for every session role; the
password reset rewrites the target's hash for any authenticated requester,
and the delete removes any target other than the requester themselves. -/
theorem c4_admin_routes_no_role_check (db : DB) (sid uid : Nat)
    (role role2 newHash : String) :
    adminResetRoute db ⟨some sid, role⟩ uid newHash =
      adminResetRoute db ⟨some sid, role2⟩ uid newHash ∧
    (adminResetRoute db ⟨some sid, role⟩ uid newHash).db.users =
      db.users.map (fun u =>
        if u.id == uid then {u with passwordHash := newHash} else u) ∧
    adminDeleteRoute db ⟨some sid, role⟩ uid =
      adminDeleteRoute db ⟨some sid, role2⟩ uid ∧
    (uid ≠ sid →
      ∀ u ∈ (adminDeleteRoute db ⟨some sid, role⟩ uid).db.users, u.id ≠ uid) := by
  refine ⟨rfl, ?_, rfl, ?_⟩
  · unfold adminResetRoute
    dsimp only
    split <;> rfl
  · intro hne u hu
    unfold adminDeleteRoute at hu
    have hb : (uid == sid) = false := by simp [hne]
    simp only [hb] at hu
    simp only [Bool.false_eq_true, if_false] at hu
    have := (List.mem_filter.mp hu).2
    simpa using this

/-- C4 witness: the reset route behaves identically under Ana's ordinary
`"participant"` role and an `"admin"` role, and after Ana (1) deletes
Bia (2) the surviving first user row does not reference id 2. -/
theorem c4_witness :
    adminResetRoute sampleDB ⟨some 1, "participant"⟩ 2 "nh" =
      adminResetRoute sampleDB ⟨some 1, "admin"⟩ 2 "nh" ∧
    (⟨1, "Ana", "ana@x.com", "h1", "participant", 0⟩ : User).id ≠ 2 :=
  ⟨(c4_admin_routes_no_role_check sampleDB 1 2 "participant" "admin" "nh").1,
    (c4_admin_routes_no_role_check sampleDB 1 2 "participant" "admin"
      "nh").2.2.2 (by decide)
      ⟨1, "Ana", "ana@x.com", "h1", "participant", 0⟩ (by decide)⟩

/-!
## Claim C5: the progress percentage
-/

/-- C5: the displayed progress percent always lies in `[0, 100]` (it is a
natural number, so only the upper bound needs proof), is `0` when the goal
is `0`, and for a positive goal equals
`min (round (total / goal * 100)) 100` with round-half-up evaluated in exact
arithmetic. -/
theorem c5_progress_percent (total goal : ℕ) :
    progressPercent total goal ≤ 100 ∧
    (goal = 0 → progressPercent total goal = 0) ∧
    (0 < goal → progressPercent total goal = min (specRound total goal) 100) := by
  refine ⟨?_, ?_, ?_⟩
  · unfold progressPercent
    split
    · omega
    · exact min_le_right _ _
  · intro h
    simp [progressPercent, h]
  · intro hg
    have hgne : goal ≠ 0 := by omega
    have hg' : (goal : ℚ) ≠ 0 := Nat.cast_ne_zero.mpr hgne
    have key : (total : ℚ) / goal * 100 + 1 / 2
        = (((200 * total + goal : ℕ) : ℤ) : ℚ) / ((2 * goal : ℕ) : ℚ) := by
      push_cast
      field_simp
      ring
    unfold progressPercent jsRound specRound
    rw [if_neg hgne, key, Rat.floor_intCast_div_natCast, ← Int.ofNat_ediv,
      Int.toNat_natCast]

/-- C5 witness: one logged exercise against a goal of three displays as
`33`, the clamped form of `round(100 / 3)`. -/
theorem c5_witness :
    progressPercent 1 3 ≤ 100 ∧ progressPercent 1 3 = min (specRound 1 3) 100 :=
  ⟨(c5_progress_percent 1 3).1, (c5_progress_percent 1 3).2.2 (by decide)⟩

/-!
## Claim C6: days remaining
-/

/-- C6 (amended): the days-remaining value is never negative, and on a
server whose timezone offset (`Date.getTimezoneOffset()`, positive west of
UTC) is non-negative it equals the calendar-day difference between the end
date and the current local date, floored at zero.  (East of UTC the value
is one greater whenever it is positive, because the handler routes the
local midnight through `toISOString`, which is a UTC conversion.) -/
theorem c6_days_remaining_amended (endDay nowMs off : ℤ) :
    0 ≤ daysRemaining endDay nowMs off ∧
    (0 ≤ off → off < 1440 →
      daysRemaining endDay nowMs off =
        max (endDay - getLocalDateString nowMs off) 0) := by
  constructor
  · exact le_max_right _ 0
  · intro h1 h2
    simp only [daysRemaining, toDateOnly, isoDateOf, getLocalDateString, jsCeilDiv]
    omega

/-- C6 (counterexample to the claim as stated): with the server one hour
east of UTC (`off = -60`), at UTC epoch instant 0 the current local date is
day 0, yet `daysRemaining` of an end date on that same day 0 is 1, not 0. -/
theorem c6_days_remaining_counterexample :
    getLocalDateString 0 (-60) = 0 ∧ daysRemaining 0 0 (-60) = 1 := by decide

/-- C6 witness: the amended theorem at Brazil's offset (`+180` minutes,
west of UTC), three days before the end date. -/
theorem c6_witness :
    daysRemaining 3 0 180 = max (3 - getLocalDateString 0 180) 0 :=
  (c6_days_remaining_amended 3 0 180).2 (by decide) (by decide)

/-!
## Claim C7: who may add a participant through the explicit-add route
-/

/-- C7 (amended): the explicit-add route creates a participant row only
when the requesting session user is the challenge's owner or already a
participant of the challenge; a request by a user who is neither changes
no participant row. -/
theorem c7_adicionar_owner_or_participant (db : DB) (sid : Nat)
    (role : String) (cid : Nat) (email now : String) :
    (adicionarRoute db ⟨some sid, role⟩ cid email now).db.participants
      ≠ db.participants →
    (sid, cid) ∈ pairsOf db ∨
      (findChallenge db cid).map Challenge.creatorId = some sid := by
  intro hne
  unfold adicionarRoute at hne
  simp only at hne
  split at hne
  · exact absurd rfl hne
  · rcases hc : findChallenge db cid with _ | c
    · rw [hc] at hne
      exact absurd rfl hne
    · rw [hc] at hne
      simp only at hne
      split at hne
      · exact absurd rfl hne
      · split at hne
        · exact absurd rfl hne
        · rename_i hauth
          by_cases hp : (findParticipant db sid cid).isSome = true
          · exact Or.inl (findParticipant_isSome.mp hp)
          · right
            have hb : (c.creatorId == sid) = true := by
              rcases hbeq : (c.creatorId == sid) with _ | _
              · exact absurd (by simp [hbeq, Option.not_isSome_iff_eq_none.mp
                  (by simpa using hp)]) hauth
              · rfl
            simp [beq_iff_eq.mp hb]

/-- C7 (counterexample to the claim as stated): Bia (2) is a participant of
challenge 1 but not its owner (Ana, 1, is), yet her add request for Caio
creates the participant row `(3, 1)`. -/
theorem c7_adicionar_counterexample :
    (adicionarRoute sampleDB ⟨some 2, "participant"⟩ 1 "caio@x.com"
      "t3").db.participants = sampleDB.participants ++ [⟨3, 1, "t3"⟩] ∧
    (findChallenge sampleDB 1).map Challenge.creatorId = some 1 ∧
    (2 : Nat) ≠ 1 := by decide

/-- C7 witness: the amended theorem applied to Bia's successful add
request: she participates in challenge 1. -/
theorem c7_witness :
    (2, 1) ∈ pairsOf sampleDB ∨
      (findChallenge sampleDB 1).map Challenge.creatorId = some 2 :=
  c7_adicionar_owner_or_participant sampleDB 2 "participant" 1
    "caio@x.com" "t3" (by decide)

/-!
## Claim C9: deleting a user cascades
-/

/-- C9: deleting a user (other than oneself) removes the user row, every
challenge the user created together with all participant and log rows of
those challenges, every participation of the user and every log of the
user, and keeps every user row and challenge row that does not reference
the deleted user. -/
theorem c9_delete_user_cascades (db : DB) (sid uid : Nat) (role : String)
    (hne : uid ≠ sid) (hids : (db.challenges.map Challenge.id).Nodup) :
    (∀ u ∈ (adminDeleteRoute db ⟨some sid, role⟩ uid).db.users, u.id ≠ uid) ∧
    (∀ c ∈ (adminDeleteRoute db ⟨some sid, role⟩ uid).db.challenges,
      c.creatorId ≠ uid) ∧
    (∀ p ∈ (adminDeleteRoute db ⟨some sid, role⟩ uid).db.participants,
      p.userId ≠ uid) ∧
    (∀ e ∈ (adminDeleteRoute db ⟨some sid, role⟩ uid).db.logs, e.userId ≠ uid) ∧
    (∀ c0 ∈ db.challenges, c0.creatorId = uid →
      (∀ p ∈ (adminDeleteRoute db ⟨some sid, role⟩ uid).db.participants,
        p.challengeId ≠ c0.id) ∧
      (∀ e ∈ (adminDeleteRoute db ⟨some sid, role⟩ uid).db.logs,
        e.challengeId ≠ c0.id)) ∧
    (∀ u ∈ db.users, u.id ≠ uid →
      u ∈ (adminDeleteRoute db ⟨some sid, role⟩ uid).db.users) ∧
    (∀ c ∈ db.challenges, c.creatorId ≠ uid →
      c ∈ (adminDeleteRoute db ⟨some sid, role⟩ uid).db.challenges) := by
  have hb : (uid == sid) = false := by simp [hne]
  unfold adminDeleteRoute
  simp only [hb]
  simp only [Bool.false_eq_true, if_false]
  refine ⟨?_, ?_, ?_, ?_, ?_, ?_, ?_⟩
  · intro u hu
    have := (List.mem_filter.mp hu).2
    simpa using this
  · intro c hc hcreator
    have hmem := (List.mem_filter.mp hc).1
    have hkeep := (List.mem_filter.mp hc).2
    have : c.id ∈ (db.challenges.filter (fun x => x.creatorId == uid)).map
        Challenge.id :=
      List.mem_map.mpr ⟨c, List.mem_filter.mpr ⟨hmem, by simp [hcreator]⟩, rfl⟩
    rw [Bool.not_eq_true', ← Bool.not_eq_true] at hkeep
    exact hkeep (by simpa [List.elem_iff] using this)
  · intro p hp
    have := (List.mem_filter.mp hp).2
    simpa using this
  · intro e he
    have := (List.mem_filter.mp he).2
    simpa using this
  · intro c0 hc0 hcreator
    constructor
    · intro p hp hpc
      have hp1 := (List.mem_filter.mp (List.mem_of_mem_filter hp)).2
      have : c0.id ∈ (db.challenges.filter (fun x => x.creatorId == uid)).map
          Challenge.id :=
        List.mem_map.mpr ⟨c0, List.mem_filter.mpr ⟨hc0, by simp [hcreator]⟩, rfl⟩
      rw [hpc] at hp1
      rw [Bool.not_eq_true', ← Bool.not_eq_true] at hp1
      exact hp1 (by simpa [List.elem_iff] using this)
    · intro e he hec
      have he1 := (List.mem_filter.mp (List.mem_of_mem_filter he)).2
      have : c0.id ∈ (db.challenges.filter (fun x => x.creatorId == uid)).map
          Challenge.id :=
        List.mem_map.mpr ⟨c0, List.mem_filter.mpr ⟨hc0, by simp [hcreator]⟩, rfl⟩
      rw [hec] at he1
      rw [Bool.not_eq_true', ← Bool.not_eq_true] at he1
      exact he1 (by simpa [List.elem_iff] using this)
  · intro u hu hid
    exact List.mem_filter.mpr ⟨hu, by simp [hid]⟩
  · intro c hc hcreator
    refine List.mem_filter.mpr ⟨hc, ?_⟩
    rw [Bool.not_eq_true', ← Bool.not_eq_true]
    intro hcontains
    have hex : ∃ a, (a ∈ db.challenges ∧ a.creatorId = uid) ∧ a.id = c.id := by
      simpa [List.elem_iff, List.mem_filter] using hcontains
    rcases hex with ⟨c1, ⟨hc1mem, hc1creator⟩, hcid⟩
    have : c1 = c := List.inj_on_of_nodup_map hids hc1mem hc hcid
    exact hcreator (this ▸ hc1creator)

/-- C9 witness: Ana (1) deletes Bia (2) from `sampleDB`; Ana's own user row
survives the cascade. -/
theorem c9_witness :
    (⟨1, "Ana", "ana@x.com", "h1", "participant", 0⟩ : User) ∈
      (adminDeleteRoute sampleDB ⟨some 1, "participant"⟩ 2).db.users :=
  (c9_delete_user_cascades sampleDB 1 2 "participant" (by decide)
      (by decide)).2.2.2.2.2.1
    ⟨1, "Ana", "ana@x.com", "h1", "participant", 0⟩ (by decide) (by decide)

/-!
## Claim C10: viewing a challenge writes to the database
-/

/-- C10: an authorised view of an existing challenge inserts a participant
row for the creator exactly when the viewer is the creator and not yet a
participant, backfills a fresh invite code exactly when the stored code is
NULL, and leaves users, logs and the id counters unchanged. -/
theorem c10_view_mutates_and_frames (db : DB) (sid cid : Nat)
    (role fresh now : String) (c : Challenge)
    (hc : findChallenge db cid = some c)
    (hauth : c.creatorId = sid ∨ (sid, cid) ∈ pairsOf db) :
    (viewChallengeRoute db ⟨some sid, role⟩ cid fresh now).db.users = db.users ∧
    (viewChallengeRoute db ⟨some sid, role⟩ cid fresh now).db.logs = db.logs ∧
    (viewChallengeRoute db ⟨some sid, role⟩ cid fresh now).db.nextUserId
      = db.nextUserId ∧
    (viewChallengeRoute db ⟨some sid, role⟩ cid fresh now).db.nextChallengeId
      = db.nextChallengeId ∧
    (viewChallengeRoute db ⟨some sid, role⟩ cid fresh now).db.participants =
      (if c.creatorId = sid ∧ (sid, cid) ∉ pairsOf db
       then db.participants ++ [⟨sid, cid, now⟩] else db.participants) ∧
    (viewChallengeRoute db ⟨some sid, role⟩ cid fresh now).db.challenges =
      (if c.inviteCode = none
       then db.challenges.map (fun ch =>
         if ch.id == cid then {ch with inviteCode := some fresh} else ch)
       else db.challenges) := by
  unfold viewChallengeRoute
  simp only [hc]
  have hnogate : (!(findParticipant db sid cid).isSome
      && !(c.creatorId == sid)) = false := by
    rcases hauth with h | h
    · simp [h]
    · simp [findParticipant_isSome.mpr h]
  simp only [hnogate, Bool.false_eq_true, if_false]
  by_cases hown : c.creatorId = sid <;> by_cases hmem : (sid, cid) ∈ pairsOf db <;>
    by_cases hcode : c.inviteCode = none <;>
  first
    | (have hiss := findParticipant_isSome.mpr hmem
       simp [hown, hmem, hcode, hiss])
    | (have hnone : findParticipant db sid cid = none :=
        findParticipant_eq_none.mpr hmem
       simp [hown, hmem, hcode, hnone])

/-- C10 witness: Bia (2) views her challenge 2, which she has not joined
and whose invite code is still NULL: her participant row appears, the code
is backfilled, the user rows stay unchanged. -/
theorem c10_witness :
    (viewChallengeRoute sampleDB ⟨some 2, "participant"⟩ 2 "f9" "t9").db.users
      = sampleDB.users ∧
    (viewChallengeRoute sampleDB ⟨some 2, "participant"⟩ 2 "f9"
        "t9").db.participants = sampleDB.participants ++ [⟨2, 2, "t9"⟩] ∧
    (viewChallengeRoute sampleDB ⟨some 2, "participant"⟩ 2 "f9"
        "t9").db.challenges = sampleDB.challenges.map (fun ch =>
      if ch.id == 2 then {ch with inviteCode := some "f9"} else ch) := by
  have h := c10_view_mutates_and_frames sampleDB 2 2 "participant" "f9" "t9"
    ⟨2, "T2", "D2", "2025-01-01", "2025-03-01", 5, none, "active", "", "",
      none, 2⟩ (by decide) (Or.inl rfl)
  refine ⟨h.1, ?_, ?_⟩
  · rw [h.2.2.2.2.1, if_pos ⟨rfl, by decide⟩]
  · rw [h.2.2.2.2.2, if_pos rfl]

/-!
## Claim C8: invite-code stability and uniqueness
-/

/-- C8 (amended): an invite code, once stored, is never changed by any
subsequent request as long as the challenge row exists (a new code is
assigned only to a NULL code), and the stored codes remain pairwise
distinct provided the random generator never repeats a code — neither one
already stored nor one drawn earlier; nothing in the code enforces that
distinctness. -/
theorem c8_invite_codes_amended :
    (∀ (db : DB) (ops : List Op), Inv db →
      ∀ c ∈ db.challenges, ∀ v, c.inviteCode = some v →
        ∀ c' ∈ (run db ops).challenges, c'.id = c.id →
          c'.inviteCode = some v) ∧
    (∀ (db : DB) (ops : List Op), Inv db →
      (codesOf db ++ allCodes ops).Nodup → (codesOf (run db ops)).Nodup) := by
  constructor
  · intro db ops hinv c hc v hv c' hc' hid
    have hlt := hinv.chalLt c hc
    have hcode : ∀ x ∈ db.challenges, x.id = c.id → x.inviteCode = some v := by
      intro x hx hxid
      have hxc : x = c := List.inj_on_of_nodup_map hinv.chalNodup hx hc hxid
      rw [hxc, hv]
    exact code_stable_run hinv ops hlt hcode c' hc' hid
  · intro db ops hinv h
    exact codes_nodup_run hinv ops h

/-- C8 (counterexample to the claim as stated): when the random generator
returns the same value twice, two distinct challenges end up holding the
same invite code — uniqueness is not enforced anywhere. -/
theorem c8_invite_code_counterexample :
    ((run initDB collideOps).challenges.map Challenge.inviteCode)
      = [some "dup0", some "dup0"] ∧
    ((run initDB collideOps).challenges.map Challenge.id) = [1, 2] := by decide

/-- C8 witness: challenge 1 of `sampleDB` keeps its code `"c1"` across a
close request, and creating a further challenge with a fresh code keeps the
stored codes duplicate-free. -/
theorem c8_witness :
    (⟨1, "T1", "D1", "2025-01-01", "2025-02-01", 10, none, "closed", "", "",
      some "c1", 1⟩ : Challenge).inviteCode = some "c1" ∧
    (codesOf (run sampleDB
      [.createChallenge ⟨some 1, "participant"⟩ "T3" "D3" "2025-01-01"
        "2025-06-01" 7 none "" "" "c9" "t9"])).Nodup :=
  ⟨c8_invite_codes_amended.1 sampleDB [.encerrar ⟨some 1, "participant"⟩ 1]
      ⟨by decide, by decide, by decide, by decide⟩
      ⟨1, "T1", "D1", "2025-01-01", "2025-02-01", 10, none, "active", "", "",
        some "c1", 1⟩ (by decide) "c1" rfl
      ⟨1, "T1", "D1", "2025-01-01", "2025-02-01", 10, none, "closed", "", "",
        some "c1", 1⟩ (by decide) rfl,
    c8_invite_codes_amended.2 sampleDB
      [.createChallenge ⟨some 1, "participant"⟩ "T3" "D3" "2025-01-01"
        "2025-06-01" 7 none "" "" "c9" "t9"]
      ⟨by decide, by decide, by decide, by decide⟩ (by decide)⟩

end KatelloFit
